import Mathlib

/-!
Verification of the TOON pi-client (devices/pi-client/toon_client) against its
specification.  Python strings are embedded as lists of characters, Python
dictionaries as association lists with insertion-order semantics (an update of
an existing key keeps its position, a new key is appended at the end), and the
effectful client flows as pure functions that also return the ordered trace of
their side effects.
-/

/-- Embedding of a Python string: a sequence of characters (code points). -/
abbrev Str := List Char

/-- Shorthand turning a Lean string literal into its character-list embedding. -/
def lit (s : String) : Str := s.data

/-- Embedding of a Python dict whose values may be None: an association list
whose keys are unique.  A value of none embeds the Python value None. -/
abbrev Tok := List (Str × Option Str)

/-- Python dict lookup d.get(k): the value stored at the unique occurrence of
the key, or none when the key is absent. -/
def dictGet (d : Tok) (k : Str) : Option (Option Str) :=
  (d.find? (fun kv => kv.1 = k)).map (fun kv => kv.2)

/-- Python dict assignment d[k] = v: an existing key keeps its position and
gets the new value, a fresh key is appended at the end. -/
def dictSet (d : Tok) (k : Str) (v : Option Str) : Tok :=
  match d with
  | [] => [(k, v)]
  | kv0 :: rest =>
    if kv0.1 = k then (k, v) :: rest else kv0 :: dictSet rest k v

/-- Python membership test k in d. -/
def dictHasKey (d : Tok) (k : Str) : Bool :=
  d.any (fun kv => kv.1 = k)

/-- Whitespace characters stripped by the Python str.strip method (the ASCII
ones; the protocol never emits others). -/
def pyIsSpace (c : Char) : Bool :=
  c = ' ' || c = '\t' || c = '\n' || c = '\x0d' || c = '\x0b' || c = '\x0c'

/-- Python s.strip(): drop leading and trailing whitespace. -/
def pyStrip (s : Str) : Str :=
  ((s.dropWhile pyIsSpace).reverse.dropWhile pyIsSpace).reverse

/-- Python s.split(sep) for a one-character separator: splitting the empty
string yields one empty part, and every separator occurrence closes a part. -/
def splitSep (sep : Char) : Str → List Str
  | [] => [[]]
  | c :: rest =>
    if c = sep then [] :: splitSep sep rest
    else
      match splitSep sep rest with
      | p :: ps => (c :: p) :: ps
      | [] => [[c]]

/-- Python p.split(colon, 1) guarded by the colon-membership test of
parse_tokens: some (before, after) splits at the first colon, none means the
part has no colon at all. -/
def split1Colon : Str → Option (Str × Str)
  | [] => none
  | c :: rest =>
    if c = ':' then some ([], rest)
    else (split1Colon rest).map (fun kv => (c :: kv.1, kv.2))

/-- Python sep.join(parts) for a one-character separator. -/
def pyJoin (sep : Char) : List Str → Str
  | [] => []
  | p :: ps =>
    match ps with
    | [] => p
    | _ :: _ => p ++ sep :: pyJoin sep ps

/-! ## toon.py — the canonical codec -/

/-- Embedding of the SIG_PREFIX tuple of toon.py, used through the Python
str.startswith tuple form: a key is reserved when it starts with any entry. -/
def SIG_MARKERS : List Str := [lit "SIG", lit "FW_SIG", lit "SIG_SERV"]

/-- Test k.startswith(SIG_PREFIX) of toon.py line 12. -/
def isSigKey (k : Str) : Bool :=
  SIG_MARKERS.any (fun p => p.isPrefixOf k)

/-- Comparison realising the Python sorted() order on strings: lexicographic
by character code, a strict prefix preceding its extensions. -/
def strLe : Str → Str → Bool
  | [], _ => true
  | _ :: _, [] => false
  | a :: as, b :: bs => if a = b then strLe as bs else decide (a < b)

/-- The Python string order as a relation, for the sorting routine. -/
def strLeR (a b : Str) : Prop := strLe a b = true

instance : DecidableRel strLeR := fun a b => instDecidableEqBool (strLe a b) true

/-- Model of the Python sorted builtin on string keys: both the builtin sort
and insertion sort are stable, so over the same total preorder they produce
the same list. -/
def pySorted (l : List Str) : List Str := l.insertionSort strLeR

/-- Item list of to_canonical_string (toon.py lines 10-17): iterate the keys in
sorted order, skip reserved keys and absent values, render key:value. -/
def canonicalItems (tokens : Tok) : List Str :=
  (pySorted (tokens.map Prod.fst)).filterMap (fun k =>
    if isSigKey k then none
    else
      match dictGet tokens k with
      | some (some v) => some (k ++ ':' :: v)
      | _ => none)

/-- Embedding of to_canonical_string (toon.py lines 9-18). -/
def to_canonical_string (tokens : Tok) : Str :=
  pyJoin '|' (canonicalItems tokens)

/-- Embedding of build_payload (toon.py lines 21-22): join the present entries
in insertion order as key:value with bar separators. -/
def build_payload (tokens : Tok) : Str :=
  pyJoin '|'
    (tokens.filterMap (fun kv => kv.2.map (fun v => kv.1 ++ ':' :: v)))

/-- Embedding of parse_tokens (toon.py lines 25-35): empty payload gives the
empty dict; otherwise strip, split on bars, skip colon-free parts, and assign
key to value-after-first-colon, later occurrences overwriting earlier ones. -/
def parse_tokens (payload : Str) : Tok :=
  if payload = [] then []
  else
    (splitSep '|' (pyStrip payload)).foldl
      (fun out p =>
        match split1Colon p with
        | none => out
        | some kv => dictSet out kv.1 (some kv.2))
      []

/-! ## toon.py — the array token group codec -/

/-- Fuel-driven decimal rendering helper; the fuel exceeds the argument, so it
never runs out. -/
def natDigitsAux : Nat → Nat → Str
  | 0, _ => []
  | fuel + 1, n =>
    if n < 10 then [Char.ofNat (48 + n)]
    else natDigitsAux fuel (n / 10) ++ [Char.ofNat (48 + n % 10)]

/-- Decimal rendering of a natural number, as produced by the Python str
builtin on the enumerate index and on len(items). -/
def natDigits (n : Nat) : Str := natDigitsAux (n + 1) n

/-- Numeric value of a digit string, as computed by the Python int builtin on
the idx group of the array key pattern. -/
def strToNat (s : Str) : Nat :=
  s.foldl (fun a c => 10 * a + (c.toNat - 48)) 0

/-- Character class A-Z0-9 of the prefix group of the toon.py array key
pattern. -/
def isUpDig (c : Char) : Bool :=
  (('A' ≤ c && c ≤ 'Z') : Bool) || (('0' ≤ c && c ≤ '9') : Bool)

/-- Character class 0-9 of the idx group. -/
def isDig (c : Char) : Bool := ('0' ≤ c && c ≤ '9' : Bool)

/-- Character class A-Z0-9_ of the key group. -/
def isKeyChar (c : Char) : Bool := isUpDig c || c = '_'

/-- Embedding of the anchored regular expression of toon.py line 37: a key of
shape PREFIX bracket idx bracket dot FIELD with nonempty groups, the prefix
over A-Z0-9, the index over 0-9, the field over A-Z0-9 underscore.  The
greedy groups are each delimited by a character outside their class, so the
match is unique when it exists. -/
def matchArrayKey (s : Str) : Option (Str × Nat × Str) :=
  let p := s.takeWhile isUpDig
  match s.dropWhile isUpDig with
  | c1 :: r2 =>
    if c1 = '[' then
      let ds := r2.takeWhile isDig
      match r2.dropWhile isDig with
      | c2 :: c3 :: key =>
        if c2 = ']' then
          if c3 = '.' then
            if p ≠ [] && ds ≠ [] && key ≠ [] && key.all isKeyChar then
              some (p, strToNat ds, key)
            else none
          else none
        else none
      | _ => none
    else none
  | [] => none

/-- Bucket-building step of parse_array_tokens (toon.py lines 48-50):
buckets.setdefault(idx) followed by item assignment at the field key.  The
bucket dict is an association list from the numeric index, a fresh index being
appended at the end. -/
def bucketAdd (bs : List (Nat × Tok)) (i : Nat) (k : Str) (v : Option Str) :
    List (Nat × Tok) :=
  match bs with
  | [] => [(i, [(k, v)])]
  | b :: rest =>
    if b.1 = i then (b.1, dictSet b.2 k v) :: rest else b :: bucketAdd rest i k v

/-- Lookup in the bucket dict by numeric index. -/
def bucketGet (bs : List (Nat × Tok)) (i : Nat) : Option Tok :=
  (bs.find? (fun b => b.1 = i)).map (fun b => b.2)

/-- Loop body of parse_array_tokens (toon.py lines 42-50): a token whose key
matches the pattern under the requested group name is bucketed by index,
every other token is ignored. -/
def decodeStep (pre : Str) (bs : List (Nat × Tok)) (kv : Str × Option Str) :
    List (Nat × Tok) :=
  match matchArrayKey kv.1 with
  | some m => if m.1 = pre then bucketAdd bs m.2.1 m.2.2 kv.2 else bs
  | none => bs

/-- Embedding of parse_array_tokens (toon.py lines 40-51): group the values of
matching keys by index, then list the groups by ascending index. -/
def parse_array_tokens (tokens : Tok) (pre : Str) : List Tok :=
  let buckets := tokens.foldl (decodeStep pre) []
  ((buckets.map Prod.fst).insertionSort (· ≤ ·)).filterMap
    (fun i => bucketGet buckets i)

/-- Array key PREFIX bracket i bracket dot k emitted by build_array_tokens
(toon.py line 58). -/
def arrKey (pre : Str) (i : Nat) (k : Str) : Str :=
  pre ++ '[' :: (natDigits i ++ ']' :: '.' :: k)

/-- Embedding of build_array_tokens (toon.py lines 54-59): emit every field of
every item under its indexed key, then the COUNT scalar. -/
def build_array_tokens (items : List Tok) (pre : Str) : Tok :=
  let out := (items.enum).foldl
    (fun out ii =>
      ii.2.foldl (fun out kv => dictSet out (arrKey pre ii.1 kv.1) kv.2) out)
    []
  dictSet out (pre ++ lit "_COUNT") (some (natDigits items.length))

/-! ## keys.py — signature verification -/

/-- Python exception classes reaching verify_with_public_b64: the nacl
ValueError and the binascii Error both subclass the builtin ValueError, and
BadSignatureError is its own class; any other exception would escape the
except clause. -/
inductive PyExc
  | valueError
  | badSignature
  | typeError
  | runtimeError
  | otherErr
deriving DecidableEq

/-- Property of the base64.b64decode builtin on str input: it either returns
bytes or raises binascii.Error, a subclass of ValueError. -/
def b64decodeSpec (f : Str → Except PyExc (List Nat)) : Prop :=
  ∀ s, (∃ b, f s = .ok b) ∨ f s = .error .valueError

/-- Constructor of nacl signing.VerifyKey: a key of any length other than 32
bytes raises the nacl ValueError. -/
def mkVerifyKey (kb : List Nat) : Except PyExc (List Nat) :=
  if kb.length = 32 then .ok kb else .error .valueError

/-- Method verify of nacl VerifyKey with detached signature: a signature of
length other than 64 raises the nacl ValueError, a failed cryptographic check
raises BadSignatureError; the cryptographic check itself is the parameter. -/
def naclVerify (crypto : List Nat → List Nat → List Nat → Bool)
    (kb data sig : List Nat) : Except PyExc Unit :=
  if sig.length ≠ 64 then .error .valueError
  else if crypto kb data sig then .ok () else .error .badSignature

/-- Embedding of DeviceKeys.verify_with_public_b64 (keys.py lines 31-38): run
the decode-key-verify chain and resolve BadSignatureError and ValueError to
false; any other exception propagates. -/
def verify_with_public_b64 (b64 : Str → Except PyExc (List Nat))
    (crypto : List Nat → List Nat → List Nat → Bool)
    (pk : Str) (data : List Nat) (sig : Str) : Except PyExc Bool :=
  let body : Except PyExc Bool := do
    let kb ← b64 pk
    let vk ← mkVerifyKey kb
    let sb ← b64 sig
    let _ ← naclVerify crypto vk data sb
    pure true
  match body with
  | .ok b => .ok b
  | .error .valueError => .ok false
  | .error .badSignature => .ok false
  | .error e => .error e

/-! ## config.py — the configured constants (environment defaults) -/

/-- Default retry interval, config.py line 22 (environment default 60). -/
def DEFAULT_RTO_SECONDS : Int := 60

/-- Backoff ceiling, config.py line 23 (environment default 600). -/
def MAX_BACKOFF_SECONDS : Int := 600

/-! ## client.py — the protocol client -/

/-- Side effects of a client flow, in program order. -/
inductive Effect
  | addNonce (n : Str)
  | auditRec (kind : Str) (dir : Str) (raw : Str)
  | httpPost (path : Str) (payload : Str)
  | httpGet (path : Str) (query : Str)
deriving DecidableEq

/-- Ambient inputs of a client flow: identity, configuration strings, the
telemetry readings already rendered to protocol strings, the freshly drawn
timestamp and nonce, and the signing routine of the device keypair. -/
structure Env where
  device_id : Str
  manufacturer : Str
  model : Str
  public_key : Str
  ts : Str
  nonce : Str
  hb_id : Str
  uptime : Str
  memory : Str
  temp : Str
  boot : Str
  net : Str
  sign : Str → Str

/-- Python int() on a token value: an optional sign followed by digits;
anything else raises ValueError. -/
def pyInt (s : Str) : Option Int :=
  match s with
  | '-' :: rest =>
    if rest ≠ [] && rest.all isDig then some (-(strToNat rest : Int)) else none
  | '+' :: rest =>
    if rest ≠ [] && rest.all isDig then some ((strToNat rest : Int)) else none
  | _ => if s ≠ [] && s.all isDig then some ((strToNat s : Int)) else none

/-- Python str() on a signed integer. -/
def intToStr (n : Int) : Str :=
  if n < 0 then '-' :: natDigits n.natAbs else natDigits n.natAbs

/-- Registration tokens of client.py lines 34-44 with the signature added. -/
def register_tokens (e : Env) : Tok :=
  let t : Tok :=
    [(lit "D1", some e.device_id), (lit "D2", some (lit "RPI_TERMINAL")),
     (lit "D3", some e.public_key), (lit "D4", some e.manufacturer),
     (lit "D5", some e.model), (lit "TS", some e.ts), (lit "NONCE", some e.nonce)]
  dictSet t (lit "SIG1") (some (e.sign (to_canonical_string t)))

/-- Effect trace of register (client.py lines 45-48): audit, post, audit — no
nonce is recorded. -/
def register_effects (e : Env) (resp_text : Str) : List Effect :=
  let p := build_payload (register_tokens e)
  [.auditRec (lit "register") (lit "out") p,
   .httpPost (lit "/api/devices/register") p,
   .auditRec (lit "register") (lit "in") resp_text]

/-- Update of rto_sec by register (client.py lines 51-52): a directive present
in the response is clamped below at 10 only — no ceiling is applied. -/
def register_rto (resp : Tok) (rto : Int) : Except PyExc Int :=
  match dictGet resp (lit "RTO") with
  | none => .ok rto
  | some none => .error .typeError
  | some (some s) =>
    match pyInt s with
    | some n => .ok (max 10 n)
    | none => .error .valueError

/-- Heartbeat tokens of client.py lines 55-68 with the signature added. -/
def heartbeat_tokens (e : Env) (current_fw : Str) : Tok :=
  let t : Tok :=
    [(lit "D1", some e.device_id), (lit "HB1", some e.hb_id),
     (lit "HB2", some e.uptime), (lit "HB3", some e.memory),
     (lit "HB4", some e.temp), (lit "HB5", some e.boot),
     (lit "HB6", some e.net), (lit "FW2", some current_fw),
     (lit "TS", some e.ts), (lit "NONCE", some e.nonce)]
  dictSet t (lit "SIG1") (some (e.sign (to_canonical_string t)))

/-- Effect trace of heartbeat_once (client.py lines 69-73): the nonce is
recorded durably before the payload is posted. -/
def heartbeat_effects (e : Env) (current_fw : Str) (resp_text : Str) :
    List Effect :=
  let p := build_payload (heartbeat_tokens e current_fw)
  [.addNonce e.nonce,
   .auditRec (lit "heartbeat") (lit "out") p,
   .httpPost (lit "/api/devices/heartbeat") p,
   .auditRec (lit "heartbeat") (lit "in") resp_text]

/-- Update of rto_sec by heartbeat_once (client.py lines 74-75): a truthy
directive is clamped between 10 and the backoff ceiling; otherwise rto_sec is
left as it was. -/
def heartbeat_rto (resp : Tok) (rto : Int) : Except PyExc Int :=
  match dictGet resp (lit "RTO") with
  | some (some s) =>
    if s = [] then .ok rto
    else
      match pyInt s with
      | some n => .ok (min MAX_BACKOFF_SECONDS (max 10 n))
      | none => .error .valueError
  | _ => .ok rto

/-- Backoff taken after a clean loop iteration (client.py line 205). -/
def loop_backoff_success (rto : Int) : Int := rto

/-- Backoff taken after a failed loop iteration (client.py line 208). -/
def loop_backoff_failure (backoff : Int) : Int :=
  min MAX_BACKOFF_SECONDS (max 10 (backoff * 2))

/-- Command-poll tokens of client.py lines 79-85 with the signature added. -/
def poll_tokens (e : Env) : Tok :=
  let t : Tok :=
    [(lit "D1", some e.device_id), (lit "TS", some e.ts),
     (lit "NONCE", some e.nonce)]
  dictSet t (lit "SIG1") (some (e.sign (to_canonical_string t)))

/-- Effect trace of commands_poll (client.py lines 87-89): audit, get, audit —
no nonce is recorded. -/
def commands_poll_effects (e : Env) (resp_text : Str) : List Effect :=
  let q := build_payload (poll_tokens e)
  [.auditRec (lit "commands_poll") (lit "out") q,
   .httpGet (lit "/api/devices/commands") q,
   .auditRec (lit "commands_poll") (lit "in") resp_text]

/-- Signable command fields of client.py line 97. -/
def signable_keys : List Str :=
  [lit "CMD1", lit "CMD2", lit "CMD3", lit "CMD4", lit "CMD5", lit "TS"]

/-- Signable subset comprehension of client.py line 97, preserving the order
of the command mapping. -/
def signable_subset (c : Tok) : Tok :=
  c.filter (fun kv => signable_keys.contains kv.1)

/-- Embedding of DeviceClient._verify_server_signature (client.py lines
234-238): an unconfigured server key rejects outright, otherwise the detached
verification runs over the canonical form of the subset.  The verification
primitive is the parameter. -/
def verify_server_signature (server_key : Str)
    (verify : Str → Str → Str → Bool) (subset : Tok) (sig : Str) : Bool :=
  if server_key = [] then false
  else verify server_key (to_canonical_string subset) sig

/-- Filtering loop of commands_poll (client.py lines 91-100): keep only the
commands whose SIG_SERV is present, nonempty, and verifies over the signable
subset under the configured server key. -/
def commands_filter (server_key : Str) (verify : Str → Str → Str → Bool)
    (cmds : List Tok) : List Tok :=
  cmds.filter (fun c =>
    match dictGet c (lit "SIG_SERV") with
    | some (some s) =>
      if s = [] || server_key = [] then false
      else verify_server_signature server_key verify (signable_subset c) s
    | _ => false)

/-- Full result of commands_poll: parse the response text, decode the CMD
array group, filter to the verified commands. -/
def commands_poll_result (server_key : Str)
    (verify : Str → Str → Str → Bool) (resp_text : Str) : List Tok :=
  commands_filter server_key verify (parse_array_tokens (parse_tokens resp_text) (lit "CMD"))

/-- Command-acknowledgment tokens of client.py lines 103-113 with the
signature added; the command id may be the Python None. -/
def command_ack_tokens (e : Env) (cmd_id : Option Str) (ok : Bool)
    (message : Str) (duration_ms : Int) : Tok :=
  let t : Tok :=
    [(lit "D1", some e.device_id), (lit "CMD1", cmd_id),
     (lit "ACK1", some (if ok then lit "OK" else lit "ERROR")),
     (lit "ACK2", some message), (lit "ACK3", some (intToStr duration_ms)),
     (lit "TS", some e.ts), (lit "NONCE", some e.nonce)]
  dictSet t (lit "SIG1") (some (e.sign (to_canonical_string t)))

/-- Effect trace of command_ack (client.py lines 114-117): audit, post,
audit — no nonce is recorded. -/
def command_ack_effects (e : Env) (cmd_id : Option Str) (ok : Bool)
    (message : Str) (duration_ms : Int) (resp_text : Str) : List Effect :=
  let p := build_payload (command_ack_tokens e cmd_id ok message duration_ms)
  [.auditRec (lit "command_ack") (lit "out") p,
   .httpPost (lit "/api/devices/command-ack") p,
   .auditRec (lit "command_ack") (lit "in") resp_text]

/-- Firmware-check tokens of client.py lines 121-128 with the signature
added. -/
def firmware_check_tokens (e : Env) (current_fw : Str) : Tok :=
  let t : Tok :=
    [(lit "D1", some e.device_id), (lit "FW2", some current_fw),
     (lit "TS", some e.ts), (lit "NONCE", some e.nonce)]
  dictSet t (lit "SIG1") (some (e.sign (to_canonical_string t)))

/-- Effect trace of firmware_check (client.py lines 129-132): audit, post,
audit — no nonce is recorded. -/
def firmware_check_effects (e : Env) (current_fw : Str) (resp_text : Str) :
    List Effect :=
  let p := build_payload (firmware_check_tokens e current_fw)
  [.auditRec (lit "fw_check") (lit "out") p,
   .httpPost (lit "/api/devices/firmware/check") p,
   .auditRec (lit "fw_check") (lit "in") resp_text]

/-! ## client.py — the firmware update pipeline -/

/-- Oracles of the firmware pipeline: the configured server key and detached
verification primitive, the transport outcome of the artifact download, the
SHA-256 hex digest of the staged bytes, and the outcome of the apply stage. -/
structure FwEnv where
  base : Env
  server_key : Str
  verify : Str → Str → Str → Bool
  download_ok : Bool
  file_hash : Str
  apply_ok : Bool
  ack_resp_text : Str

/-- Manifest signable subset of client.py line 138: the keys FW1, FW2, FW4,
FW5 in that fixed order, those present in the response. -/
def fw_manifest_subset (resp : Tok) : Tok :=
  [lit "FW1", lit "FW2", lit "FW4", lit "FW5"].filterMap
    (fun k => (dictGet resp k).map (fun v => (k, v)))

/-- Firmware acknowledgment tokens of client.py lines 167-177 with the
signature added. -/
def fw_ack_tokens (e : Env) (fw_id : Option Str) (fw2 : Option Str)
    (applied : Bool) : Tok :=
  let t : Tok :=
    [(lit "D1", some e.device_id), (lit "FW1", fw_id), (lit "FW2", fw2),
     (lit "ACK1", some (if applied then lit "OK" else lit "ERROR")),
     (lit "ACK2", some (if applied then lit "Firmware applied successfully"
                        else lit "Apply failed, rolled back")),
     (lit "TS", some e.ts), (lit "NONCE", some e.nonce)]
  dictSet t (lit "SIG1") (some (e.sign (to_canonical_string t)))

/-- Embedding of DeviceClient.firmware_apply_flow (client.py lines 135-184).
Returns the ordered effect trace, the boolean result, and the firmware
version held by the client afterwards (an Option, since resp.get can hand
back the Python None).  Each guard mirrors a source line: a falsy or
unverifiable FW_SIG aborts with only an audit record; a falsy FW3 url or a
failed transfer aborts likewise; a truthy FW4 checksum differing from the
digest of the staged bytes aborts likewise, before the apply stage; only
then is the apply stage run, the acknowledgment posted, and current_fw
updated when the apply succeeded. -/
def firmware_apply_flow (fe : FwEnv) (resp : Tok) (force_fail : Bool)
    (current_fw : Str) : List Effect × Bool × Option Str :=
  let fwSigOk :=
    match dictGet resp (lit "FW_SIG") with
    | some (some s) =>
      if s = [] then false
      else verify_server_signature fe.server_key fe.verify
        (fw_manifest_subset resp) s
    | _ => false
  if fwSigOk = false then
    ([.auditRec (lit "fw_manifest") (lit "in") (lit "ERR: invalid FW_SIG")],
     false, some current_fw)
  else
    let downloadOk :=
      match dictGet resp (lit "FW3") with
      | some (some u) => if u = [] then false else fe.download_ok
      | _ => false
    if downloadOk = false then
      ([.auditRec (lit "fw_download") (lit "in") (lit "ERR: download failed")],
       false, some current_fw)
    else
      let checksumMismatch :=
        match dictGet resp (lit "FW4") with
        | some (some c) => if c = [] then false else decide (fe.file_hash ≠ c)
        | _ => false
      if checksumMismatch then
        ([.auditRec (lit "fw_checksum") (lit "in") (lit "ERR: checksum mismatch")],
         false, some current_fw)
      else
        let applied := if force_fail then false else fe.apply_ok
        let fw_id :=
          match dictGet resp (lit "FW1") with
          | none => some (lit "fw")
          | some v => v
        let fw2 :=
          match dictGet resp (lit "FW2") with
          | none => some []
          | some v => v
        let ackPayload := build_payload (fw_ack_tokens fe.base fw_id fw2 applied)
        let newFw :=
          if applied then
            match dictGet resp (lit "FW2") with
            | none => some current_fw
            | some v => v
          else some current_fw
        ([.auditRec (lit "fw_ack") (lit "out") ackPayload,
          .httpPost (lit "/api/devices/firmware/ack") ackPayload,
          .auditRec (lit "fw_ack") (lit "in") fe.ack_resp_text],
         applied, newFw)

/-! ## client.py — command handling -/

/-- One invocation of command_ack as produced by _handle_command. -/
structure AckCall where
  cmd_id : Option Str
  ok : Bool
  message : Str
  duration_ms : Int
deriving DecidableEq

/-- Python f-string interpolation of a possibly-None value. -/
def pyShow (v : Option Str) : Str :=
  match v with
  | some s => s
  | none => lit "None"

/-- Python int() truncation toward zero of an exact real duration. -/
def pyIntTrunc (q : ℚ) : Int :=
  if 0 ≤ q then Rat.floor q else Rat.ceil q

/-- Python cmd.get(key, default-empty-string). -/
def pyGetEmpty (cmd : Tok) (k : Str) : Option Str :=
  match dictGet cmd k with
  | none => some []
  | some v => v

/-- Embedding of DeviceClient._handle_command (client.py lines 211-232) over
exact dispatch-start and ack-construction times in seconds: the dispatch by
command type never throws, and the finally block makes exactly one
acknowledgment call, carrying the truncated elapsed milliseconds.  The
returned list is the list of command_ack invocations. -/
def handle_command (cmd : Tok) (t0 t1 : ℚ) : List AckCall :=
  let cmd_id := pyGetEmpty cmd (lit "CMD1")
  let ctype := pyGetEmpty cmd (lit "CMD2")
  let res : Bool × Str :=
    if ctype = some (lit "RESTART") then (true, lit "Restart simulated")
    else if ctype = some (lit "FETCH_LOGS") then
      (true,
        match pyGetEmpty cmd (lit "CMD3") with
        | some s => if s = [] then lit "logs captured" else s
        | none => lit "logs captured")
    else (false, lit "unsupported command " ++ pyShow ctype)
  [⟨cmd_id, res.1, res.2, pyIntTrunc ((t1 - t0) * 1000)⟩]

/-! ## Trace predicates -/

/-- Transport sends within a trace. -/
def isSend : Effect → Bool
  | .httpPost _ _ => true
  | .httpGet _ _ => true
  | _ => false

/-- Nonces recorded in the ledger along a trace, in order. -/
def recordedNonces (tr : List Effect) : List Str :=
  tr.filterMap (fun ev =>
    match ev with
    | .addNonce n => some n
    | _ => none)

/-- Helper scanning a trace: accumulate whether a nonce has been recorded and
demand it at every transport send. -/
def nonceBeforeSendAux : Bool → List Effect → Bool
  | _, [] => true
  | seen, ev :: rest =>
    match ev with
    | .addNonce _ => nonceBeforeSendAux true rest
    | .httpPost _ _ => seen && nonceBeforeSendAux seen rest
    | .httpGet _ _ => seen && nonceBeforeSendAux seen rest
    | .auditRec _ _ _ => nonceBeforeSendAux seen rest

/-- Every transport send in the trace is preceded by a ledger record. -/
def nonceBeforeSend (tr : List Effect) : Bool :=
  nonceBeforeSendAux false tr

/-! ## Supporting lemmas on the dict and split/join model -/

lemma dictGet_cons (kv : Str × Option Str) (rest : Tok) (k : Str) :
    dictGet (kv :: rest) k = if kv.1 = k then some kv.2 else dictGet rest k := by
  by_cases h : kv.1 = k
  · simp [dictGet, List.find?_cons, h]
  · simp [dictGet, List.find?_cons, h]

lemma dictGet_dictSet (d : Tok) (k k2 : Str) (v : Option Str) :
    dictGet (dictSet d k v) k2 = if k2 = k then some v else dictGet d k2 := by
  induction d with
  | nil =>
    show dictGet [(k, v)] k2 = _
    rw [dictGet_cons]
    by_cases h : k2 = k
    · simp [h]
    · rw [if_neg (fun hh : k = k2 => h hh.symm), if_neg h]
  | cons kv0 rest ih =>
    by_cases h0 : kv0.1 = k
    · simp only [dictSet, if_pos h0]
      rw [dictGet_cons, dictGet_cons]
      by_cases h : k2 = k
      · rw [if_pos h.symm, if_pos h]
      · rw [if_neg (fun hh : k = k2 => h hh.symm), if_neg h,
          if_neg (fun hh : kv0.1 = k2 => h (h0 ▸ hh.symm ▸ rfl))]
    · simp only [dictSet, if_neg h0]
      rw [dictGet_cons, dictGet_cons]
      by_cases h : kv0.1 = k2
      · rw [if_pos h, if_pos h, if_neg (fun hh : k2 = k => h0 (h ▸ hh))]
      · rw [if_neg h, if_neg h, ih]

lemma dictSet_fresh (d : Tok) (k : Str) (v : Option Str)
    (h : dictHasKey d k = false) : dictSet d k v = d ++ [(k, v)] := by
  induction d with
  | nil => rfl
  | cons kv0 rest ih =>
    simp only [dictHasKey, List.any_cons, Bool.or_eq_false_iff] at h
    simp only [dictSet, if_neg (by simpa using h.1), List.cons_append]
    exact congrArg _ (ih h.2)

lemma dictHasKey_append (a b : Tok) (k : Str) :
    dictHasKey (a ++ b) k = (dictHasKey a k || dictHasKey b k) := by
  simp [dictHasKey, List.any_append]

lemma splitSep_no_sep (sep : Char) (p : Str) (h : sep ∉ p) :
    splitSep sep p = [p] := by
  induction p with
  | nil => rfl
  | cons c rest ih =>
    have hc : ¬c = sep := fun hh => h (hh ▸ List.mem_cons_self c rest)
    have hr : sep ∉ rest := fun hh => h (List.mem_cons_of_mem c hh)
    simp [splitSep, if_neg hc, ih hr]

lemma splitSep_append_sep (sep : Char) (p t : Str) (h : sep ∉ p) :
    splitSep sep (p ++ sep :: t) = p :: splitSep sep t := by
  induction p with
  | nil => simp [splitSep]
  | cons c rest ih =>
    have hc : ¬c = sep := fun hh => h (hh ▸ List.mem_cons_self c rest)
    have hr : sep ∉ rest := fun hh => h (List.mem_cons_of_mem c hh)
    show splitSep sep (c :: (rest ++ sep :: t)) = (c :: rest) :: splitSep sep t
    simp only [splitSep, if_neg hc]
    rw [ih hr]

lemma splitSep_pyJoin (sep : Char) :
    ∀ parts : List Str, parts ≠ [] → (∀ p ∈ parts, sep ∉ p) →
      splitSep sep (pyJoin sep parts) = parts := by
  intro parts
  induction parts with
  | nil => intro h; exact absurd rfl h
  | cons p ps ih =>
    intro _ hmem
    match ps, ih with
    | [], _ => exact splitSep_no_sep sep p (hmem p (List.mem_cons_self _ _))
    | q :: rest, ih =>
      have h1 : sep ∉ p := hmem p (List.mem_cons_self _ _)
      have h2 : ∀ r ∈ q :: rest, sep ∉ r :=
        fun r hr => hmem r (List.mem_cons_of_mem p hr)
      calc splitSep sep (pyJoin sep (p :: q :: rest))
          = splitSep sep (p ++ sep :: pyJoin sep (q :: rest)) := rfl
        _ = p :: splitSep sep (pyJoin sep (q :: rest)) := splitSep_append_sep sep _ _ h1
        _ = p :: q :: rest := by rw [ih (by simp) h2]

lemma split1Colon_mk (k v : Str) (h : ':' ∉ k) :
    split1Colon (k ++ ':' :: v) = some (k, v) := by
  induction k with
  | nil => simp [split1Colon]
  | cons c rest ih =>
    have hc : ¬c = ':' := fun hh => h (hh ▸ List.mem_cons_self c rest)
    have hr : ':' ∉ rest := fun hh => h (List.mem_cons_of_mem c hh)
    simp [split1Colon, if_neg hc, ih hr]

/-! ## C10 — totality and last-wins of parse_tokens -/

lemma parse_fold_lookup (parts : List Str) :
    ∀ (out : Tok) (k : Str),
      dictGet (parts.foldl (fun out p =>
        match split1Colon p with
        | none => out
        | some kv => dictSet out kv.1 (some kv.2)) out) k =
      (match (parts.filterMap split1Colon).reverse.lookup k with
       | some v => some (some v)
       | none => dictGet out k) := by
  induction parts with
  | nil => intro out k; rfl
  | cons p rest ih =>
    intro out k
    rw [List.foldl_cons, List.filterMap_cons]
    cases hsp : split1Colon p with
    | none =>
      simp only [hsp]
      exact ih out k
    | some kv =>
      simp only [hsp]
      rw [ih (dictSet out kv.1 (some kv.2)) k]
      rw [List.reverse_cons, List.lookup_append]
      cases hl : (rest.filterMap split1Colon).reverse.lookup k with
      | some v => simp [hl, Option.or]
      | none =>
        simp only [hl, Option.or]
        rw [dictGet_dictSet]
        by_cases hk : k = kv.1
        · simp [List.lookup, hk]
        · have hb : (k == kv.1) = false := beq_eq_false_iff_ne.mpr hk
          simp [List.lookup, hk, hb]

/-- C10: parse_tokens is total — every payload yields a mapping, the empty
payload the empty one — and the value found for a key equals the value of the
last colon-carrying part with that key (colon-free parts contribute
nothing). -/
theorem parse_tokens_total_last_wins :
    parse_tokens [] = [] ∧
    ∀ (payload k : Str),
      dictGet (parse_tokens payload) k =
        (((splitSep '|' (pyStrip payload)).filterMap split1Colon).reverse.lookup k).map some := by
  refine ⟨rfl, fun payload k => ?_⟩
  by_cases h : payload = []
  · subst h
    show (none : Option (Option Str)) = _
    simp [pyStrip, splitSep, split1Colon, List.lookup]
  · rw [parse_tokens, if_neg h, parse_fold_lookup]
    cases hl : ((splitSep '|' (pyStrip payload)).filterMap split1Colon).reverse.lookup k with
    | some v => simp [hl]
    | none => simp [hl]; rfl

/-! ## C7 — round trip of serialize and parse -/

lemma build_payload_of_some (d : Tok) (hv : ∀ kv ∈ d, kv.2 ≠ none) :
    build_payload d = pyJoin '|' (d.map (fun kv => kv.1 ++ ':' :: kv.2.getD [])) := by
  unfold build_payload
  congr 1
  induction d with
  | nil => rfl
  | cons kv rest ih =>
    cases hkv : kv.2 with
    | none => exact absurd hkv (hv kv (List.mem_cons_self _ _))
    | some v =>
      simp only [List.filterMap_cons, List.map_cons, hkv, Option.map_some, Option.getD_some]
      exact congrArg _ (ih (fun kv2 h2 => hv kv2 (List.mem_cons_of_mem _ h2)))

lemma parse_fold_items (d : Tok) :
    ∀ out : Tok,
      (∀ kv ∈ d, kv.2 ≠ none) → (∀ kv ∈ d, ':' ∉ kv.1) →
      (∀ kv ∈ d, dictHasKey out kv.1 = false) → (d.map Prod.fst).Nodup →
      (d.map (fun kv => kv.1 ++ ':' :: kv.2.getD [])).foldl
        (fun out p =>
          match split1Colon p with
          | none => out
          | some kv => dictSet out kv.1 (some kv.2)) out = out ++ d := by
  induction d with
  | nil => intro out _ _ _ _; simp
  | cons kv rest ih =>
    intro out hv hk hfresh hnd
    obtain ⟨v, hkv⟩ : ∃ v, kv.2 = some v :=
      Option.ne_none_iff_exists'.mp (hv kv (List.mem_cons_self _ _))
    rw [List.map_cons, List.foldl_cons]
    have hsp : split1Colon (kv.1 ++ ':' :: kv.2.getD []) = some (kv.1, kv.2.getD []) :=
      split1Colon_mk _ _ (hk kv (List.mem_cons_self _ _))
    simp only [hsp]
    have hset : dictSet out kv.1 (some (kv.2.getD [])) = out ++ [kv] := by
      have hkveta : (kv.1, some v) = kv := by
        rw [← hkv]
      rw [hkv, Option.getD_some]
      rw [dictSet_fresh out kv.1 (some v) (hfresh kv (List.mem_cons_self _ _)), hkveta]
    rw [hset]
    rw [List.map_cons, List.nodup_cons] at hnd
    have hrest := ih (out ++ [kv])
      (fun kv2 h2 => hv kv2 (List.mem_cons_of_mem _ h2))
      (fun kv2 h2 => hk kv2 (List.mem_cons_of_mem _ h2))
      (fun kv2 h2 => by
        rw [dictHasKey_append, Bool.or_eq_false_iff]
        refine ⟨hfresh kv2 (List.mem_cons_of_mem _ h2), ?_⟩
        have hne : kv.1 ≠ kv2.1 := fun hh =>
          hnd.1 (hh ▸ List.mem_map_of_mem Prod.fst h2)
        simp [dictHasKey, hne])
      hnd.2
    rw [hrest, List.append_assoc]
    rfl

/-- C7 counterexample: serializing a mapping whose value embeds the bar
delimiter and parsing it back does not restore the mapping, so the claimed
unconditional round trip fails. -/
theorem parse_serialize_roundtrip_cex :
    parse_tokens (build_payload [(lit "K", some (lit "a|b"))]) ≠
      [(lit "K", some (lit "a|b"))] := by decide

/-- C7 (amended): for every mapping with duplicate-free keys, all values
present, no colon or bar inside any key, no bar inside any value, and no
leading or trailing whitespace in the serialized form, parsing the serialized
wire form restores the mapping exactly. -/
theorem parse_serialize_roundtrip (d : Tok)
    (hnd : (d.map Prod.fst).Nodup)
    (hv : ∀ kv ∈ d, kv.2 ≠ none)
    (hk : ∀ kv ∈ d, ':' ∉ kv.1 ∧ '|' ∉ kv.1)
    (hvb : ∀ kv ∈ d, ∀ v, kv.2 = some v → '|' ∉ v)
    (hstrip : pyStrip (build_payload d) = build_payload d) :
    parse_tokens (build_payload d) = d := by
  cases d with
  | nil => rfl
  | cons kv0 rest =>
    set d := kv0 :: rest with hd
    have hmap : build_payload d = pyJoin '|' (d.map (fun kv => kv.1 ++ ':' :: kv.2.getD [])) :=
      build_payload_of_some d hv
    have hne : build_payload d ≠ [] := by
      rw [hmap, hd]
      obtain ⟨v, hkv⟩ : ∃ v, kv0.2 = some v :=
        Option.ne_none_iff_exists'.mp (hv kv0 (List.mem_cons_self _ _))
      cases rest with
      | nil => simp [pyJoin]
      | cons q qs => simp [pyJoin]
    rw [parse_tokens, if_neg hne, hstrip, hmap]
    have hparts : splitSep '|' (pyJoin '|' (d.map (fun kv => kv.1 ++ ':' :: kv.2.getD []))) =
        d.map (fun kv => kv.1 ++ ':' :: kv.2.getD []) := by
      refine splitSep_pyJoin '|' _ (by simp [hd]) ?_
      intro p hp
      obtain ⟨kv, hkvmem, hkveq⟩ := List.mem_map.mp hp
      obtain ⟨v, hkv2⟩ : ∃ v, kv.2 = some v :=
        Option.ne_none_iff_exists'.mp (hv kv hkvmem)
      intro hbar
      rw [← hkveq] at hbar
      rcases List.mem_append.mp hbar with hbk | hbv
      · exact (hk kv hkvmem).2 hbk
      · rcases List.mem_cons.mp hbv with hcolon | hval
        · exact absurd hcolon (by decide)
        · exact hvb kv hkvmem v hkv2 (by rw [hkv2] at hval; exact hval)
    rw [hparts]
    have := parse_fold_items d []
      hv (fun kv h => (hk kv h).1) (fun kv _ => rfl) hnd
    rw [this]
    rfl

/-- C7 witness: a concrete well-formed mapping round-trips. -/
theorem parse_serialize_roundtrip_witness :
    parse_tokens (build_payload
      [(lit "D1", some (lit "dev1")), (lit "TS", some (lit "2026-01-01T00:00:00.000Z"))]) =
      [(lit "D1", some (lit "dev1")), (lit "TS", some (lit "2026-01-01T00:00:00.000Z"))] :=
  parse_serialize_roundtrip _ (by decide) (by decide) (by decide) (by decide) (by decide)

/-! ## C5 — canonicalization: exclusions, sorting, order invariance -/

lemma strLe_total : ∀ a b : Str, strLe a b = true ∨ strLe b a = true
  | [], _ => Or.inl rfl
  | _ :: _, [] => Or.inr rfl
  | a :: as, b :: bs => by
    by_cases h : a = b
    · subst h
      simp only [strLe, if_pos rfl]
      exact strLe_total as bs
    · rcases lt_or_gt_of_ne h with hlt | hgt
      · left; simp [strLe, if_neg h, hlt]
      · right
        simp [strLe, if_neg (Ne.symm h), hgt]

lemma strLe_trans : ∀ a b c : Str,
    strLe a b = true → strLe b c = true → strLe a c = true
  | [], _, _ => fun _ _ => rfl
  | _ :: _, [], _ => fun h _ => absurd h (by simp [strLe])
  | _ :: _, _ :: _, [] => fun _ h => absurd h (by simp [strLe])
  | a :: as, b :: bs, c :: cs => by
    intro hab hbc
    by_cases h1 : a = b
    · subst h1
      by_cases h2 : a = c
      · subst h2
        simp only [strLe, if_pos rfl] at hab hbc ⊢
        exact strLe_trans as bs cs hab hbc
      · simp only [strLe, if_pos rfl] at hab
        simpa [strLe, if_neg h2] using hbc
    · by_cases h2 : b = c
      · subst h2
        simpa [strLe, if_neg h1] using hab
      · simp only [strLe, if_neg h1] at hab
        simp only [strLe, if_neg h2] at hbc
        have hac : a < c := lt_trans (of_decide_eq_true hab) (of_decide_eq_true hbc)
        have hne : ¬a = c := ne_of_lt hac
        simp [strLe, if_neg hne, hac]

lemma strLe_antisymm : ∀ a b : Str,
    strLe a b = true → strLe b a = true → a = b
  | [], [] => fun _ _ => rfl
  | [], _ :: _ => fun _ h => absurd h (by simp [strLe])
  | _ :: _, [] => fun h _ => absurd h (by simp [strLe])
  | a :: as, b :: bs => by
    intro hab hba
    by_cases h : a = b
    · subst h
      simp only [strLe, if_pos rfl] at hab hba
      rw [strLe_antisymm as bs hab hba]
    · simp only [strLe, if_neg h] at hab
      simp only [strLe, if_neg (Ne.symm h)] at hba
      exact absurd (of_decide_eq_true hba) (lt_asymm (of_decide_eq_true hab))

instance : IsTotal Str strLeR := ⟨fun a b => strLe_total a b⟩

instance : IsTrans Str strLeR := ⟨fun a b c => strLe_trans a b c⟩

/-- Selector of the entries kept by the canonicalization: a present value
under a non-reserved key. -/
def keepEntry (kv : Str × Option Str) : Option (Str × Str) :=
  match kv.2 with
  | some v => if isSigKey kv.1 then none else some (kv.1, v)
  | none => none

/-- Entries of a token mapping kept by the canonicalization: present values
whose key is not reserved, in insertion order. -/
def keptEntries (d : Tok) : List (Str × Str) :=
  d.filterMap keepEntry

lemma keepEntry_fst (a : Str × Option Str) (p : Str × Str)
    (h : keepEntry a = some p) : p.1 = a.1 := by
  unfold keepEntry at h
  cases ha : a.2 with
  | none => rw [ha] at h; exact absurd h (by simp)
  | some v =>
    rw [ha] at h
    change (if isSigKey a.1 = true then none else some (a.1, v)) = some p at h
    by_cases hs : isSigKey a.1
    · rw [if_pos hs] at h
      exact absurd h (by simp)
    · rw [if_neg hs] at h
      cases h
      rfl

/-- Key order on kept entries. -/
def pairKeyLe (p q : Str × Str) : Prop := strLeR p.1 q.1

instance : DecidableRel pairKeyLe := fun p q =>
  instDecidableEqBool (strLe p.1 q.1) true

instance : IsTotal (Str × Str) pairKeyLe := ⟨fun p q => strLe_total p.1 q.1⟩

instance : IsTrans (Str × Str) pairKeyLe := ⟨fun p q r => strLe_trans p.1 q.1 r.1⟩

/-- Strict key order on kept entries, under which sorted lists are unique. -/
def pairKeyLt (p q : Str × Str) : Prop := pairKeyLe p q ∧ p.1 ≠ q.1

instance : IsAntisymm (Str × Str) pairKeyLt :=
  ⟨fun _ _ hab hba => absurd (strLe_antisymm _ _ hab.1 hba.1) hab.2⟩

lemma pairwise_filterMap_of {α β : Type} (f : α → Option β)
    {r : α → α → Prop} {q : β → β → Prop}
    (hf : ∀ a b x y, r a b → f a = some x → f b = some y → q x y) :
    ∀ {l : List α}, l.Pairwise r → (l.filterMap f).Pairwise q := by
  intro l hl
  induction hl with
  | nil => simp
  | @cons a l ha _ ih =>
    rw [List.filterMap_cons]
    cases hfa : f a with
    | none => exact ih
    | some x =>
      refine List.Pairwise.cons ?_ ih
      intro y hy
      obtain ⟨b, hbmem, hfb⟩ := List.mem_filterMap.mp hy
      exact hf a b x y (ha b hbmem) hfa hfb

lemma map_fst_filterMap_sublist {α β γ : Type} (f : α → Option (β × γ))
    (key : α → β) (hf : ∀ a p, f a = some p → p.1 = key a) :
    ∀ l : List α, ((l.filterMap f).map Prod.fst).Sublist (l.map key) := by
  intro l
  induction l with
  | nil => simp
  | cons a rest ih =>
    rw [List.filterMap_cons, List.map_cons]
    cases hfa : f a with
    | none => exact ih.cons (key a)
    | some p =>
      rw [List.map_cons, hf a p hfa]
      exact ih.cons₂ (key a)

lemma sorted_key_strict {l : List (Str × Str)}
    (hs : l.Pairwise pairKeyLe) (hnd : (l.map Prod.fst).Nodup) :
    l.Pairwise pairKeyLt := by
  have hne : l.Pairwise (fun p q : Str × Str => p.1 ≠ q.1) :=
    List.pairwise_map.mp hnd
  exact (hs.and hne).imp (fun h => h)

/-- Sorting-by-key of two permuted lists of entries with duplicate-free keys
gives the same list. -/
lemma insertionSort_eq_of_perm (l1 l2 : List (Str × Str))
    (hp : l1.Perm l2) (hnd : (l1.map Prod.fst).Nodup) :
    l1.insertionSort pairKeyLe = l2.insertionSort pairKeyLe := by
  have hperm : (l1.insertionSort pairKeyLe).Perm (l2.insertionSort pairKeyLe) :=
    ((List.perm_insertionSort pairKeyLe l1).trans hp).trans
      (List.perm_insertionSort pairKeyLe l2).symm
  have hs1 : (l1.insertionSort pairKeyLe).Pairwise pairKeyLe :=
    List.sorted_insertionSort pairKeyLe l1
  have hs2 : (l2.insertionSort pairKeyLe).Pairwise pairKeyLe :=
    List.sorted_insertionSort pairKeyLe l2
  have hnd1 : ((l1.insertionSort pairKeyLe).map Prod.fst).Nodup :=
    ((List.perm_insertionSort pairKeyLe l1).map Prod.fst).symm.nodup hnd
  have hnd2 : ((l2.insertionSort pairKeyLe).map Prod.fst).Nodup :=
    (hperm.map Prod.fst).nodup hnd1
  exact List.eq_of_perm_of_sorted hperm
    (sorted_key_strict hs1 hnd1) (sorted_key_strict hs2 hnd2)

/-- Per-key selector realising the body of the canonicalization loop. -/
def gPair (d : Tok) (k : Str) : Option (Str × Str) :=
  if isSigKey k then none
  else
    match dictGet d k with
    | some (some v) => some (k, v)
    | _ => none

lemma gPair_fst (d : Tok) (k : Str) (p : Str × Str)
    (h : gPair d k = some p) : p.1 = k := by
  unfold gPair at h
  by_cases hs : isSigKey k
  · simp [hs] at h
  · simp only [if_neg hs] at h
    cases hg : dictGet d k with
    | none => rw [hg] at h; exact absurd h (by simp)
    | some v =>
      cases v with
      | none => rw [hg] at h; exact absurd h (by simp)
      | some v0 =>
        rw [hg] at h
        cases h
        rfl

lemma filterMap_gPair_keys (d : Tok) (hnd : (d.map Prod.fst).Nodup) :
    (d.map Prod.fst).filterMap (gPair d) = keptEntries d := by
  induction d with
  | nil => rfl
  | cons kv rest ih =>
    rw [List.map_cons, List.nodup_cons] at hnd
    rw [List.map_cons, List.filterMap_cons]
    have hget : dictGet (kv :: rest) kv.1 = some kv.2 := by
      rw [dictGet_cons, if_pos rfl]
    have htail : rest.map Prod.fst = rest.map Prod.fst := rfl
    have htl : (rest.map Prod.fst).filterMap (gPair (kv :: rest)) =
        (rest.map Prod.fst).filterMap (gPair rest) := by
      refine List.filterMap_congr ?_
      intro k hkmem
      have hne : kv.1 ≠ k := fun hh => hnd.1 (hh ▸ hkmem)
      unfold gPair
      rw [dictGet_cons, if_neg hne]
    have hhead : gPair (kv :: rest) kv.1 =
        match kv.2 with
        | some v => if isSigKey kv.1 then none else some (kv.1, v)
        | none => none := by
      unfold gPair
      rw [hget]
      cases hkv : kv.2 with
      | none => simp
      | some v =>
        by_cases hs : isSigKey kv.1 <;> simp [hs]
    rw [hhead, htl, ih hnd.2]
    cases hkv : kv.2 with
    | none => simp [keptEntries, keepEntry, List.filterMap_cons, hkv]
    | some v =>
      by_cases hs : isSigKey kv.1 <;>
        simp [keptEntries, keepEntry, List.filterMap_cons, hkv, hs]

/-- Characterization of canonicalItems: keep exactly the non-reserved,
present-valued entries, sort them by key, render key colon value. -/
lemma canonicalItems_eq_sorted_kept (d : Tok) (hnd : (d.map Prod.fst).Nodup) :
    canonicalItems d =
      ((keptEntries d).insertionSort pairKeyLe).map (fun p => p.1 ++ ':' :: p.2) := by
  have hbody : canonicalItems d =
      (pySorted (d.map Prod.fst)).filterMap
        (fun k => (gPair d k).map (fun p => p.1 ++ ':' :: p.2)) := by
    unfold canonicalItems
    refine List.filterMap_congr ?_
    intro k _
    unfold gPair
    by_cases hs : isSigKey k
    · simp [hs]
    · simp only [if_neg hs]
      cases hg : dictGet d k with
      | none => simp
      | some v => cases v <;> simp
  rw [hbody, ← List.map_filterMap]
  congr 1
  have hperm : ((pySorted (d.map Prod.fst)).filterMap (gPair d)).Perm (keptEntries d) := by
    have h1 : (pySorted (d.map Prod.fst)).Perm (d.map Prod.fst) :=
      List.perm_insertionSort strLeR (d.map Prod.fst)
    exact (h1.filterMap (gPair d)).trans
      (by rw [filterMap_gPair_keys d hnd])
  have hsorted1 : ((pySorted (d.map Prod.fst)).filterMap (gPair d)).Pairwise pairKeyLe := by
    have hks : (pySorted (d.map Prod.fst)).Pairwise strLeR :=
      List.sorted_insertionSort strLeR (d.map Prod.fst)
    refine pairwise_filterMap_of (gPair d) ?_ hks
    intro a b x y hr hfa hfb
    unfold pairKeyLe
    rw [gPair_fst d a x hfa, gPair_fst d b y hfb]
    exact hr
  have hknodup : ((pySorted (d.map Prod.fst)).filterMap (gPair d)).map Prod.fst |>.Nodup := by
    have hsub := map_fst_filterMap_sublist (gPair d) id (gPair_fst d)
      (pySorted (d.map Prod.fst))
    rw [List.map_id] at hsub
    have : (pySorted (d.map Prod.fst)).Nodup :=
      (List.perm_insertionSort strLeR (d.map Prod.fst)).symm.nodup hnd
    exact this.sublist hsub
  have hsorted2 : ((keptEntries d).insertionSort pairKeyLe).Pairwise pairKeyLe :=
    List.sorted_insertionSort pairKeyLe (keptEntries d)
  have hperm2 : ((pySorted (d.map Prod.fst)).filterMap (gPair d)).Perm
      ((keptEntries d).insertionSort pairKeyLe) :=
    hperm.trans (List.perm_insertionSort pairKeyLe (keptEntries d)).symm
  have hknodup2 : (((keptEntries d).insertionSort pairKeyLe).map Prod.fst).Nodup :=
    (hperm2.map Prod.fst).nodup hknodup
  exact List.eq_of_perm_of_sorted hperm2
    (sorted_key_strict hsorted1 hknodup)
    (sorted_key_strict hsorted2 hknodup2)

/-- Exclusion set named by the spec sentence of the claim: a key equal to or
starting with SIG, or equal to FW_SIG, or equal to SIG_SERV. -/
def specReservedKey (k : Str) : Bool :=
  (lit "SIG").isPrefixOf k || k = lit "FW_SIG" || k = lit "SIG_SERV"

/-- C5 counterexample: the key FW_SIG2 is outside the exclusion set stated by
the claim, yet canonicalization drops it (the code excludes every key that
merely starts with FW_SIG), so the exclusion is not exactly the stated set. -/
theorem canonicalize_exclusion_cex :
    to_canonical_string [(lit "FW_SIG2", some (lit "x")), (lit "A", some (lit "1"))] =
      lit "A:1" ∧ specReservedKey (lit "FW_SIG2") = false := by decide

/-- C5 (amended): for every mapping with duplicate-free keys, the canonical
item list consists of exactly the entries with a present value whose key does
not start with SIG and does not start with FW_SIG, sorted ascending by key and
rendered key colon value; consequently the output is invariant under
permutation of the mapping. -/
theorem canonicalize_sorted_excludes_invariant (d : Tok)
    (hnd : (d.map Prod.fst).Nodup) :
    canonicalItems d =
      ((keptEntries d).insertionSort pairKeyLe).map (fun p => p.1 ++ ':' :: p.2) ∧
    (∀ kv ∈ d, isSigKey kv.1 =
      ((lit "SIG").isPrefixOf kv.1 || (lit "FW_SIG").isPrefixOf kv.1)) ∧
    ∀ d2, d.Perm d2 → to_canonical_string d = to_canonical_string d2 := by
  refine ⟨canonicalItems_eq_sorted_kept d hnd, ?_, ?_⟩
  · intro kv _
    show isSigKey kv.1 = _
    unfold isSigKey SIG_MARKERS
    simp only [List.any_cons, List.any_nil, Bool.or_false]
    cases hs : (lit "SIG_SERV").isPrefixOf kv.1
    · simp
    · have hp : (lit "SIG").isPrefixOf kv.1 = true := by
        have h1 : List.IsPrefix (lit "SIG") (lit "SIG_SERV") := by decide
        have h2 : List.IsPrefix (lit "SIG_SERV") kv.1 :=
          List.isPrefixOf_iff_prefix.mp hs
        exact List.isPrefixOf_iff_prefix.mpr (h1.trans h2)
      rw [hp]
      simp
  · intro d2 hp
    have hnd2 : (d2.map Prod.fst).Nodup := (hp.map Prod.fst).nodup hnd
    unfold to_canonical_string
    rw [canonicalItems_eq_sorted_kept d hnd, canonicalItems_eq_sorted_kept d2 hnd2]
    have hk : keptEntries d |>.Perm (keptEntries d2) := hp.filterMap _
    have hkey : ((keptEntries d).map Prod.fst).Nodup := by
      have hsub := map_fst_filterMap_sublist keepEntry Prod.fst keepEntry_fst d
      exact hnd.sublist hsub
    rw [insertionSort_eq_of_perm _ _ hk hkey]

/-- C5 witness: a concrete mapping with nonduplicate keys, evaluated on both
sides of the amended characterization and on a concrete permutation. -/
theorem canonicalize_sorted_excludes_invariant_witness :
    canonicalItems [(lit "B", some (lit "2")), (lit "SIGX", some (lit "s")),
        (lit "A", some (lit "1")), (lit "C", none)] =
      ((keptEntries [(lit "B", some (lit "2")), (lit "SIGX", some (lit "s")),
        (lit "A", some (lit "1")), (lit "C", none)]).insertionSort pairKeyLe).map
          (fun p => p.1 ++ ':' :: p.2) ∧
    to_canonical_string [(lit "B", some (lit "2")), (lit "SIGX", some (lit "s")),
        (lit "A", some (lit "1")), (lit "C", none)] =
      to_canonical_string [(lit "A", some (lit "1")), (lit "C", none),
        (lit "B", some (lit "2")), (lit "SIGX", some (lit "s"))] := by
  have h := canonicalize_sorted_excludes_invariant
    [(lit "B", some (lit "2")), (lit "SIGX", some (lit "s")),
     (lit "A", some (lit "1")), (lit "C", none)] (by decide)
  refine ⟨h.1, h.2.2 _ ?_⟩
  decide

/-! ## C4 — command filtering by server signature -/

lemma commands_pred_iff (server_key : Str) (verify : Str → Str → Str → Bool)
    (c : Tok) :
    ((match dictGet c (lit "SIG_SERV") with
      | some (some s) =>
        if s = [] || server_key = [] then false
        else verify_server_signature server_key verify (signable_subset c) s
      | _ => false) = true) ↔
    ∃ s, dictGet c (lit "SIG_SERV") = some (some s) ∧ s ≠ [] ∧ server_key ≠ [] ∧
      verify server_key (to_canonical_string (signable_subset c)) s = true := by
  cases hg : dictGet c (lit "SIG_SERV") with
  | none => simp
  | some v =>
    cases v with
    | none => simp
    | some s =>
      by_cases hs : s = []
      · simp [hs]
      · by_cases hk : server_key = []
        · simp [hs, hk]
        · simp [hs, hk, verify_server_signature, if_neg hk]

/-- C4: a command is returned by the poll exactly when it carries a nonempty
SIG_SERV token, a server public key is configured, and the verification
primitive accepts the signature over the canonical form of the fixed signable
subset; with no configured key the returned list is empty. -/
theorem commands_poll_only_verified :
    ∀ (server_key : Str) (verify : Str → Str → Str → Bool) (resp_text : Str)
      (c : Tok),
      (c ∈ commands_poll_result server_key verify resp_text ↔
        c ∈ parse_array_tokens (parse_tokens resp_text) (lit "CMD") ∧
        ∃ s, dictGet c (lit "SIG_SERV") = some (some s) ∧ s ≠ [] ∧
          server_key ≠ [] ∧
          verify server_key (to_canonical_string (signable_subset c)) s = true) ∧
      commands_poll_result [] verify resp_text = [] := by
  intro server_key verify resp_text c
  constructor
  · unfold commands_poll_result commands_filter
    rw [List.mem_filter]
    constructor
    · rintro ⟨hmem, hpred⟩
      exact ⟨hmem, (commands_pred_iff server_key verify c).mp hpred⟩
    · rintro ⟨hmem, hex⟩
      exact ⟨hmem, (commands_pred_iff server_key verify c).mpr hex⟩
  · unfold commands_poll_result commands_filter
    rw [List.filter_eq_nil_iff]
    intro a _ h
    obtain ⟨s, _, _, hk, _⟩ := (commands_pred_iff [] verify a).mp h
    exact hk rfl

/-! ## C9 — verification never raises -/

/-- C9: for every base64 decoder obeying the library contract (returns bytes
or raises ValueError), every cryptographic primitive, and all inputs, the
verify routine resolves to a boolean — BadSignatureError and ValueError are
the only exceptions the chain can raise and both are caught. -/
theorem verify_with_public_b64_total :
    ∀ (b64 : Str → Except PyExc (List Nat))
      (crypto : List Nat → List Nat → List Nat → Bool)
      (pk : Str) (data : List Nat) (sig : Str),
      b64decodeSpec b64 →
      ∃ b, verify_with_public_b64 b64 crypto pk data sig = .ok b := by
  intro b64 crypto pk data sig hspec
  unfold verify_with_public_b64 mkVerifyKey naclVerify
  rcases hspec pk with ⟨kb, hkb⟩ | hkb
  · by_cases hlen : kb.length = 32
    · rcases hspec sig with ⟨sb, hsb⟩ | hsb
      · by_cases hslen : sb.length = 64
        · cases hc : crypto kb data sb
          · exact ⟨false, by simp [hkb, hsb, hlen, hslen, hc, Bind.bind, Except.bind, Except.instMonad, pure, Except.pure]⟩
          · exact ⟨true, by simp [hkb, hsb, hlen, hslen, hc, Bind.bind, Except.bind, Except.instMonad, pure, Except.pure]⟩
        · exact ⟨false, by simp [hkb, hsb, hlen, hslen, Bind.bind, Except.bind, Except.instMonad, pure, Except.pure]⟩
      · exact ⟨false, by simp [hkb, hsb, hlen, Bind.bind, Except.bind, Except.instMonad, pure, Except.pure]⟩
    · exact ⟨false, by simp [hkb, hlen, Bind.bind, Except.bind, Except.instMonad, pure, Except.pure]⟩
  · exact ⟨false, by simp [hkb, Bind.bind, Except.bind, Except.instMonad, pure, Except.pure]⟩

/-- C9 witness: a concrete decoder satisfying the contract, applied at
concrete inputs. -/
theorem verify_with_public_b64_total_witness :
    b64decodeSpec (fun _ => .ok []) ∧
    ∃ b, verify_with_public_b64 (fun _ => .ok []) (fun _ _ _ => false)
      (lit "pk") [1, 2, 3] (lit "sig") = .ok b := by
  have hspec : b64decodeSpec (fun _ => .ok []) := fun s => Or.inl ⟨[], rfl⟩
  exact ⟨hspec,
    verify_with_public_b64_total (fun _ => .ok []) (fun _ _ _ => false)
      (lit "pk") [1, 2, 3] (lit "sig") hspec⟩

/-! ## C6 — exactly one acknowledgment per handled command -/

/-- C6: every accepted command produces exactly one acknowledgment call,
carrying the truncated elapsed milliseconds measured from dispatch start; an
unsupported command type yields a failure acknowledgment with the descriptive
message, without raising. -/
theorem handle_command_one_ack :
    ∀ (cmd : Tok) (t0 t1 : ℚ),
      ∃ a : AckCall, handle_command cmd t0 t1 = [a] ∧
        a.cmd_id = pyGetEmpty cmd (lit "CMD1") ∧
        a.duration_ms = pyIntTrunc ((t1 - t0) * 1000) ∧
        (pyGetEmpty cmd (lit "CMD2") ≠ some (lit "RESTART") →
         pyGetEmpty cmd (lit "CMD2") ≠ some (lit "FETCH_LOGS") →
         a.ok = false ∧
         a.message = lit "unsupported command " ++ pyShow (pyGetEmpty cmd (lit "CMD2"))) := by
  intro cmd t0 t1
  by_cases h1 : pyGetEmpty cmd (lit "CMD2") = some (lit "RESTART")
  · refine ⟨⟨pyGetEmpty cmd (lit "CMD1"), true, lit "Restart simulated",
      pyIntTrunc ((t1 - t0) * 1000)⟩, ?_, rfl, rfl, ?_⟩
    · simp [handle_command, h1]
    · intro hn1 _
      exact absurd h1 hn1
  · by_cases h2 : pyGetEmpty cmd (lit "CMD2") = some (lit "FETCH_LOGS")
    · refine ⟨⟨pyGetEmpty cmd (lit "CMD1"), true,
        (match pyGetEmpty cmd (lit "CMD3") with
         | some s => if s = [] then lit "logs captured" else s
         | none => lit "logs captured"),
        pyIntTrunc ((t1 - t0) * 1000)⟩, ?_, rfl, rfl, ?_⟩
      · simp [handle_command, h1, h2,
          show lit "FETCH_LOGS" ≠ lit "RESTART" from by decide]
      · intro _ hn2
        exact absurd h2 hn2
    · refine ⟨⟨pyGetEmpty cmd (lit "CMD1"), false,
        lit "unsupported command " ++ pyShow (pyGetEmpty cmd (lit "CMD2")),
        pyIntTrunc ((t1 - t0) * 1000)⟩, ?_, rfl, rfl, fun _ _ => ⟨rfl, rfl⟩⟩
      simp [handle_command, h1, h2]

/-- C6 witness: a concrete command of an unsupported type at concrete times,
resolved through the theorem. -/
theorem handle_command_one_ack_witness :
    ∃ a : AckCall,
      handle_command [(lit "CMD1", some (lit "c77")), (lit "CMD2", some (lit "NOPE"))]
        0 2 = [a] ∧
      a.ok = false ∧
      a.message = lit "unsupported command NOPE" ∧
      a.duration_ms = pyIntTrunc ((2 - 0) * 1000) := by
  obtain ⟨a, heq, _, hdur, hun⟩ := handle_command_one_ack
    [(lit "CMD1", some (lit "c77")), (lit "CMD2", some (lit "NOPE"))] 0 2
  obtain ⟨hok, hmsg⟩ := hun (by decide) (by decide)
  refine ⟨a, heq, hok, ?_, hdur⟩
  rw [hmsg]
  decide

/-! ## C2 — nonce recording relative to sends -/

/-- C2 counterexample: the registration flow sends a signed message but its
trace contains no ledger record at all, so the send is not preceded by one. -/
theorem register_sends_without_nonce_record_cex :
    (register_effects
      ⟨lit "dev", lit "man", lit "mod", lit "pk", lit "ts", lit "n0",
       lit "hb", lit "u", lit "m", lit "t", lit "b", lit "net",
       fun _ => lit "sg"⟩ (lit "S1:registered")).any isSend = true ∧
    nonceBeforeSend (register_effects
      ⟨lit "dev", lit "man", lit "mod", lit "pk", lit "ts", lit "n0",
       lit "hb", lit "u", lit "m", lit "t", lit "b", lit "net",
       fun _ => lit "sg"⟩ (lit "S1:registered")) = false := by decide

/-- C2 (amended): only the heartbeat flow records its nonce in the durable
ledger, and it does so before its transport send; the registration, command
poll, command acknowledgment, firmware check, and firmware acknowledgment
flows never record a nonce. -/
theorem nonce_record_heartbeat_only :
    ∀ (e : Env) (fw txt : Str) (cid : Option Str) (ok : Bool) (msg : Str)
      (dur : Int) (fe : FwEnv) (resp : Tok) (ff : Bool) (cfw : Str),
      nonceBeforeSend (heartbeat_effects e fw txt) = true ∧
      recordedNonces (heartbeat_effects e fw txt) = [e.nonce] ∧
      recordedNonces (register_effects e txt) = [] ∧
      recordedNonces (commands_poll_effects e txt) = [] ∧
      recordedNonces (command_ack_effects e cid ok msg dur txt) = [] ∧
      recordedNonces (firmware_check_effects e fw txt) = [] ∧
      recordedNonces (firmware_apply_flow fe resp ff cfw).1 = [] := by
  intro e fw txt cid ok msg dur fe resp ff cfw
  refine ⟨rfl, rfl, rfl, rfl, rfl, rfl, ?_⟩
  unfold firmware_apply_flow
  dsimp only
  split
  · rfl
  · split
    · rfl
    · split
      · rfl
      · rfl

instance {e a : Type} [DecidableEq e] [DecidableEq a] : DecidableEq (Except e a)
  | .ok x, .ok y => if h : x = y then isTrue (by rw [h]) else isFalse (by simp [h])
  | .ok _, .error _ => isFalse (by simp)
  | .error _, .ok _ => isFalse (by simp)
  | .error x, .error y => if h : x = y then isTrue (by rw [h]) else isFalse (by simp [h])

/-! ## C3 — backoff updates on successful exchanges -/

/-- C3 counterexample: a registration directive of 100000 seconds is stored
with no ceiling applied (the claimed clamp would cap it at the 600-second
ceiling), and a successful heartbeat without a directive leaves a previously
raised interval at 120 instead of reverting it to the 60-second default. -/
theorem backoff_cex :
    register_rto [(lit "RTO", some (lit "100000"))] 60 = .ok 100000 ∧
    MAX_BACKOFF_SECONDS = 600 ∧ ¬((100000 : Int) ≤ 600) ∧
    heartbeat_rto [] 120 = .ok 120 ∧
    DEFAULT_RTO_SECONDS = 60 ∧ (120 : Int) ≠ 60 ∧
    loop_backoff_success 120 = 120 := by decide

/-- C3 (amended): on a successful exchange carrying a nonempty numeric
directive, heartbeat_once clamps it into the band between 10 and the
configured ceiling, while register applies only the floor of 10 and no
ceiling; on a successful exchange without a directive the interval keeps its
previous value — it does not revert to DEFAULT_RTO_SECONDS — and the run loop
sleeps for that kept value. -/
theorem backoff_update_spec :
    ∀ (resp : Tok) (rto : Int) (s : Str) (n : Int),
      (dictGet resp (lit "RTO") = some (some s) → s ≠ [] → pyInt s = some n →
        heartbeat_rto resp rto = .ok (min MAX_BACKOFF_SECONDS (max 10 n)) ∧
        register_rto resp rto = .ok (max 10 n)) ∧
      (dictGet resp (lit "RTO") = none →
        heartbeat_rto resp rto = .ok rto ∧ register_rto resp rto = .ok rto ∧
        loop_backoff_success rto = rto) := by
  intro resp rto s n
  constructor
  · intro hg hs hn
    constructor <;> simp [heartbeat_rto, register_rto, hg, hs, hn]
  · intro hg
    refine ⟨?_, ?_, rfl⟩ <;> simp [heartbeat_rto, register_rto, hg]

/-- C3 witness: a concrete directive above the ceiling, clamped by heartbeat
and stored unclamped by register, and a concrete directive-free success. -/
theorem backoff_update_spec_witness :
    heartbeat_rto [(lit "RTO", some (lit "7000"))] 60 = .ok 600 ∧
    register_rto [(lit "RTO", some (lit "7000"))] 60 = .ok 7000 ∧
    heartbeat_rto [] 60 = .ok 60 := by
  have h := backoff_update_spec [(lit "RTO", some (lit "7000"))] 60 (lit "7000") 7000
  have h2 := backoff_update_spec ([] : Tok) 60 (lit "x") 0
  obtain ⟨ha, hb⟩ := h.1 (by decide) (by decide) (by decide)
  refine ⟨?_, ?_, (h2.2 (by decide)).1⟩
  · rw [ha]; decide
  · rw [hb]; decide

/-! ## C1 — firmware pipeline on checksum mismatch -/

/-- C1 counterexample: with a verifying manifest, a successful download, and a
digest differing from the FW4 checksum, the pipeline aborts before the apply
stage leaving only an audit record — no acknowledgment is sent at all (the
trace holds no transport send), while the claim says a failure acknowledgment
is sent; the tracked version is unchanged. -/
theorem firmware_checksum_no_ack_cex :
    firmware_apply_flow
      ⟨⟨lit "dev", lit "man", lit "mod", lit "pk", lit "ts", lit "n0",
        lit "hb", lit "u", lit "m", lit "t", lit "b", lit "net",
        fun _ => lit "sg"⟩,
       lit "K", fun _ _ _ => true, true, lit "aa", true, lit "ok"⟩
      [(lit "FW_SIG", some (lit "s")), (lit "FW1", some (lit "f1")),
       (lit "FW2", some (lit "2.0")), (lit "FW3", some (lit "http://x")),
       (lit "FW4", some (lit "bb")), (lit "FW5", some (lit "9"))]
      false (lit "1.0") =
    ([.auditRec (lit "fw_checksum") (lit "in") (lit "ERR: checksum mismatch")],
     false, some (lit "1.0")) ∧
    (firmware_apply_flow
      ⟨⟨lit "dev", lit "man", lit "mod", lit "pk", lit "ts", lit "n0",
        lit "hb", lit "u", lit "m", lit "t", lit "b", lit "net",
        fun _ => lit "sg"⟩,
       lit "K", fun _ _ _ => true, true, lit "aa", true, lit "ok"⟩
      [(lit "FW_SIG", some (lit "s")), (lit "FW1", some (lit "f1")),
       (lit "FW2", some (lit "2.0")), (lit "FW3", some (lit "http://x")),
       (lit "FW4", some (lit "bb")), (lit "FW5", some (lit "9"))]
      false (lit "1.0")).1.any isSend = false := by decide

/-- C1 (amended): on a checksum mismatch after verification and download the
pipeline aborts before the apply stage with only an audit record — no
acknowledgment is sent — and the tracked firmware version is unchanged; in
general, a failed flow leaves the version unchanged, a successful flow sets
it to the manifest target version when one is present, and only a flow that
reached the acknowledgment stage ever sends. -/
theorem firmware_checksum_mismatch_aborts :
    ∀ (fe : FwEnv) (resp : Tok) (ff : Bool) (cfw : Str),
      (∀ s u c,
        dictGet resp (lit "FW_SIG") = some (some s) → s ≠ [] →
        verify_server_signature fe.server_key fe.verify (fw_manifest_subset resp) s = true →
        dictGet resp (lit "FW3") = some (some u) → u ≠ [] → fe.download_ok = true →
        dictGet resp (lit "FW4") = some (some c) → c ≠ [] → fe.file_hash ≠ c →
        firmware_apply_flow fe resp ff cfw =
          ([.auditRec (lit "fw_checksum") (lit "in") (lit "ERR: checksum mismatch")],
           false, some cfw)) ∧
      ((firmware_apply_flow fe resp ff cfw).2.1 = false →
        (firmware_apply_flow fe resp ff cfw).2.2 = some cfw) ∧
      ((firmware_apply_flow fe resp ff cfw).2.1 = true →
        ∀ tv, dictGet resp (lit "FW2") = some (some tv) →
          (firmware_apply_flow fe resp ff cfw).2.2 = some tv) ∧
      ((firmware_apply_flow fe resp ff cfw).2.1 = true →
        (firmware_apply_flow fe resp ff cfw).1.any isSend = true) := by
  intro fe resp ff cfw
  refine ⟨?_, ?_, ?_, ?_⟩
  · intro s u c h1 h2 h3 h4 h5 h6 h7 h8 h9
    simp only [firmware_apply_flow, h1, h2, h3, h4, h5, h6, h7]
    simp [h2, h5, h8, h9]
  · unfold firmware_apply_flow
    dsimp only
    split
    · intro _; rfl
    · split
      · intro _; rfl
      · split
        · intro _; rfl
        · intro h
          simp only at h
          simp [h]
  · unfold firmware_apply_flow
    dsimp only
    split
    · intro h; exact absurd h (by simp)
    · split
      · intro h; exact absurd h (by simp)
      · split
        · intro h; exact absurd h (by simp)
        · intro h tv htv
          simp only at h
          simp [h, htv]
  · unfold firmware_apply_flow
    dsimp only
    split
    · intro h; exact absurd h (by simp)
    · split
      · intro h; exact absurd h (by simp)
      · split
        · intro h; exact absurd h (by simp)
        · intro _
          simp [isSend]

/-- C1 witness: the checksum-mismatch branch of the amended theorem at a
concrete manifest and environment. -/
theorem firmware_checksum_mismatch_aborts_witness :
    firmware_apply_flow
      ⟨⟨lit "d2", lit "man", lit "mod", lit "pk", lit "ts", lit "n1",
        lit "hb", lit "u", lit "m", lit "t", lit "b", lit "net",
        fun _ => lit "sg"⟩,
       lit "KEY", fun _ _ _ => true, true, lit "0abc", true, lit "ok"⟩
      [(lit "FW_SIG", some (lit "mansig")), (lit "FW1", some (lit "fw9")),
       (lit "FW2", some (lit "3.1")), (lit "FW3", some (lit "http://y")),
       (lit "FW4", some (lit "0def")), (lit "FW5", some (lit "42"))]
      true (lit "3.0") =
    ([.auditRec (lit "fw_checksum") (lit "in") (lit "ERR: checksum mismatch")],
     false, some (lit "3.0")) :=
  (firmware_checksum_mismatch_aborts
    ⟨⟨lit "d2", lit "man", lit "mod", lit "pk", lit "ts", lit "n1",
      lit "hb", lit "u", lit "m", lit "t", lit "b", lit "net",
      fun _ => lit "sg"⟩,
     lit "KEY", fun _ _ _ => true, true, lit "0abc", true, lit "ok"⟩
    [(lit "FW_SIG", some (lit "mansig")), (lit "FW1", some (lit "fw9")),
     (lit "FW2", some (lit "3.1")), (lit "FW3", some (lit "http://y")),
     (lit "FW4", some (lit "0def")), (lit "FW5", some (lit "42"))]
    true (lit "3.0")).1
    (lit "mansig") (lit "http://y") (lit "0def")
    (by decide) (by decide) (by decide) (by decide) (by decide) (by decide)
    (by decide) (by decide) (by decide)

/-! ## C8 — array token round trip: digit rendering -/

lemma natDigitsAux_irrel : ∀ n f1 f2 : Nat, n < f1 → n < f2 →
    natDigitsAux f1 n = natDigitsAux f2 n := by
  intro n
  induction n using Nat.strong_induction_on with
  | _ n ih =>
    intro f1 f2 h1 h2
    cases f1 with
    | zero => exact absurd h1 (Nat.not_lt_zero n)
    | succ g1 =>
      cases f2 with
      | zero => exact absurd h2 (Nat.not_lt_zero n)
      | succ g2 =>
        simp only [natDigitsAux]
        by_cases h10 : n < 10
        · rw [if_pos h10, if_pos h10]
        · rw [if_neg h10, if_neg h10]
          have hdiv : n / 10 < n := Nat.div_lt_self (by omega) (by omega)
          rw [ih (n / 10) hdiv g1 g2 (by omega) (by omega)]

lemma natDigits_eq (n : Nat) :
    natDigits n = if n < 10 then [Char.ofNat (48 + n)]
      else natDigits (n / 10) ++ [Char.ofNat (48 + n % 10)] := by
  show natDigitsAux (n + 1) n = _
  simp only [natDigitsAux]
  by_cases h10 : n < 10
  · rw [if_pos h10, if_pos h10]
  · rw [if_neg h10, if_neg h10]
    have hdiv : n / 10 < n := Nat.div_lt_self (by omega) (by omega)
    rw [natDigitsAux_irrel (n / 10) n (n / 10 + 1) (by omega) (Nat.lt_succ_self _)]
    rfl

lemma digit_toNat (r : Nat) (h : r < 10) : (Char.ofNat (48 + r)).toNat = 48 + r := by
  interval_cases r <;> decide

lemma isDig_digitChar (r : Nat) (h : r < 10) : isDig (Char.ofNat (48 + r)) = true := by
  interval_cases r <;> decide

lemma natDigits_all_isDig (n : Nat) : (natDigits n).all isDig = true := by
  induction n using Nat.strong_induction_on with
  | _ n ih =>
    rw [natDigits_eq]
    by_cases h10 : n < 10
    · rw [if_pos h10]
      simp [isDig_digitChar n h10]
    · rw [if_neg h10]
      have hdiv : n / 10 < n := Nat.div_lt_self (by omega) (by omega)
      rw [List.all_append]
      simp [ih (n / 10) hdiv, isDig_digitChar (n % 10) (Nat.mod_lt n (by omega))]

lemma natDigits_ne_nil (n : Nat) : natDigits n ≠ [] := by
  rw [natDigits_eq]
  by_cases h10 : n < 10
  · rw [if_pos h10]; simp
  · rw [if_neg h10]; simp

lemma strToNat_append_digit (xs : Str) (c : Char) :
    strToNat (xs ++ [c]) = 10 * strToNat xs + (c.toNat - 48) := by
  unfold strToNat
  rw [List.foldl_append]
  rfl

lemma strToNat_natDigits (n : Nat) : strToNat (natDigits n) = n := by
  induction n using Nat.strong_induction_on with
  | _ n ih =>
    rw [natDigits_eq]
    by_cases h10 : n < 10
    · rw [if_pos h10]
      show 10 * 0 + ((Char.ofNat (48 + n)).toNat - 48) = n
      rw [digit_toNat n h10]
      omega
    · rw [if_neg h10]
      have hdiv : n / 10 < n := Nat.div_lt_self (by omega) (by omega)
      rw [strToNat_append_digit, ih (n / 10) hdiv,
        digit_toNat (n % 10) (Nat.mod_lt n (by omega))]
      omega

lemma takeWhile_append_all (p : Char → Bool) (l t : List Char)
    (h : l.all p = true) : (l ++ t).takeWhile p = l ++ t.takeWhile p := by
  induction l with
  | nil => rfl
  | cons c rest ih =>
    rw [List.all_cons, Bool.and_eq_true] at h
    rw [List.cons_append, List.takeWhile_cons, if_pos h.1, ih h.2]
    rfl

lemma dropWhile_append_all (p : Char → Bool) (l t : List Char)
    (h : l.all p = true) : (l ++ t).dropWhile p = t.dropWhile p := by
  induction l with
  | nil => rfl
  | cons c rest ih =>
    rw [List.all_cons, Bool.and_eq_true] at h
    rw [List.cons_append, List.dropWhile_cons, if_pos h.1, ih h.2]

/-! ## C8 — array token round trip: the key pattern -/

lemma matchArrayKey_arrKey (i : Nat) (k : Str) (hk : k ≠ [])
    (hkc : k.all isKeyChar = true) :
    matchArrayKey (arrKey (lit "CMD") i k) = some (lit "CMD", i, k) := by
  have hCMD : (lit "CMD").all isUpDig = true := by decide
  have hshape : arrKey (lit "CMD") i k =
      lit "CMD" ++ '[' :: (natDigits i ++ ']' :: '.' :: k) := rfl
  unfold matchArrayKey
  rw [hshape]
  rw [takeWhile_append_all isUpDig _ _ hCMD,
    dropWhile_append_all isUpDig _ _ hCMD]
  rw [show List.takeWhile isUpDig ('[' :: (natDigits i ++ ']' :: '.' :: k)) = []
      from by rw [List.takeWhile_cons]; simp [isUpDig],
    show List.dropWhile isUpDig ('[' :: (natDigits i ++ ']' :: '.' :: k)) =
        '[' :: (natDigits i ++ ']' :: '.' :: k)
      from by rw [List.dropWhile_cons]; simp [isUpDig]]
  dsimp only
  rw [if_pos rfl]
  rw [takeWhile_append_all isDig _ _ (natDigits_all_isDig i),
    dropWhile_append_all isDig _ _ (natDigits_all_isDig i)]
  rw [show List.takeWhile isDig (']' :: '.' :: k) = []
      from by rw [List.takeWhile_cons]; simp [isDig],
    show List.dropWhile isDig (']' :: '.' :: k) = ']' :: '.' :: k
      from by rw [List.dropWhile_cons]; simp [isDig]]
  dsimp only
  rw [if_pos rfl, if_pos rfl, if_pos]
  · rw [List.append_nil, List.append_nil, strToNat_natDigits]
  · simp only [Bool.and_eq_true, decide_eq_true_eq, ne_eq]
    refine ⟨⟨⟨by simp [lit], by simp [natDigits_ne_nil i]⟩, by simp [hk]⟩, hkc⟩

lemma matchArrayKey_count : matchArrayKey (lit "CMD" ++ lit "_COUNT") = none := by
  decide

lemma arrKey_inj (i j : Nat) (k k2 : Str)
    (hk : k ≠ []) (hkc : k.all isKeyChar = true)
    (hk2 : k2 ≠ []) (hkc2 : k2.all isKeyChar = true)
    (h : arrKey (lit "CMD") i k = arrKey (lit "CMD") j k2) : i = j ∧ k = k2 := by
  have h1 := matchArrayKey_arrKey i k hk hkc
  rw [h, matchArrayKey_arrKey j k2 hk2 hkc2] at h1
  simp only [Option.some.injEq, Prod.mk.injEq] at h1
  exact ⟨h1.2.1.symm, h1.2.2.symm⟩

lemma arrKey_ne_count (i : Nat) (k : Str) (hk : k ≠ [])
    (hkc : k.all isKeyChar = true) :
    arrKey (lit "CMD") i k ≠ lit "CMD" ++ lit "_COUNT" := by
  intro h
  have h1 := matchArrayKey_arrKey i k hk hkc
  rw [h, matchArrayKey_count] at h1
  exact absurd h1 (by simp)

/-! ## C8 — array token round trip: the encoder flattens -/

/-- Token list emitted for the items of an array group from a given start
index: each field of each item under its indexed key, in order. -/
def flatTokens (pre : Str) : Nat → List Tok → Tok
  | _, [] => []
  | i, item :: rest =>
    item.map (fun kv => (arrKey pre i kv.1, kv.2)) ++ flatTokens pre (i + 1) rest

/-- Items on which the decode of an encode can be exact: nonempty mappings
with duplicate-free keys, every key a nonempty word over A-Z0-9 underscore. -/
def validItems (seq : List Tok) : Prop :=
  ∀ item ∈ seq, item ≠ [] ∧ (item.map Prod.fst).Nodup ∧
    ∀ kv ∈ item, kv.1 ≠ [] ∧ kv.1.all isKeyChar = true

lemma dictHasKey_false (d : Tok) (k : Str) :
    dictHasKey d k = false ↔ ∀ kv ∈ d, kv.1 ≠ k := by
  unfold dictHasKey
  rw [List.any_eq_false]
  simp

lemma flatTokens_mem_key : ∀ (seq : List Tok) (n : Nat) (kv : Str × Option Str),
    kv ∈ flatTokens (lit "CMD") n seq → validItems seq →
    ∃ i2 kk, n ≤ i2 ∧ kk ≠ [] ∧ kk.all isKeyChar = true ∧
      kv.1 = arrKey (lit "CMD") i2 kk := by
  intro seq
  induction seq with
  | nil => intro n kv h _; exact absurd h (by simp [flatTokens])
  | cons item rest ih =>
    intro n kv h hval
    rw [flatTokens] at h
    rcases List.mem_append.mp h with hblk | hrest
    · obtain ⟨kv0, hkv0, heq⟩ := List.mem_map.mp hblk
      obtain ⟨hne, hall⟩ := (hval item (List.mem_cons_self _ _)).2.2 kv0 hkv0
      exact ⟨n, kv0.1, le_refl n, hne, hall, (congrArg Prod.fst heq).symm⟩
    · obtain ⟨i2, kk, hi2, hkk, hallk, heq⟩ := ih (n + 1) kv hrest
        (fun it hm => hval it (List.mem_cons_of_mem _ hm))
      exact ⟨i2, kk, by omega, hkk, hallk, heq⟩

lemma item_foldl_flat : ∀ (item : Tok) (out : Tok) (n : Nat),
    (item.map Prod.fst).Nodup →
    (∀ kv ∈ item, kv.1 ≠ [] ∧ kv.1.all isKeyChar = true) →
    (∀ kv ∈ item, dictHasKey out (arrKey (lit "CMD") n kv.1) = false) →
    item.foldl (fun o kv => dictSet o (arrKey (lit "CMD") n kv.1) kv.2) out =
      out ++ item.map (fun kv => (arrKey (lit "CMD") n kv.1, kv.2)) := by
  intro item
  induction item with
  | nil => intro out n _ _ _; simp
  | cons kv restf ih =>
    intro out n hnd hvalid hfresh
    rw [List.foldl_cons,
      dictSet_fresh out _ kv.2 (hfresh kv (List.mem_cons_self _ _))]
    rw [List.map_cons, List.nodup_cons] at hnd
    have hv0 := hvalid kv (List.mem_cons_self _ _)
    have := ih (out ++ [(arrKey (lit "CMD") n kv.1, kv.2)]) n hnd.2
      (fun kv2 h2 => hvalid kv2 (List.mem_cons_of_mem _ h2))
      (fun kv2 h2 => by
        rw [dictHasKey_append, Bool.or_eq_false_iff]
        refine ⟨hfresh kv2 (List.mem_cons_of_mem _ h2), ?_⟩
        have hv2 := hvalid kv2 (List.mem_cons_of_mem _ h2)
        rw [dictHasKey_false]
        intro kv3 hm3 he
        rw [List.mem_singleton] at hm3
        rw [hm3] at he
        have := arrKey_inj n n kv.1 kv2.1 hv0.1 hv0.2 hv2.1 hv2.2 he
        exact hnd.1 (this.2 ▸ List.mem_map_of_mem Prod.fst h2))
    rw [this, List.append_assoc]
    rfl

lemma enum_foldl_flat : ∀ (seq : List Tok) (n : Nat) (out : Tok),
    validItems seq →
    (∀ k2 ∈ out.map Prod.fst, ∃ i2 kk, i2 < n ∧ kk ≠ [] ∧
      kk.all isKeyChar = true ∧ k2 = arrKey (lit "CMD") i2 kk) →
    (List.enumFrom n seq).foldl
      (fun o ii => ii.2.foldl
        (fun o2 kv => dictSet o2 (arrKey (lit "CMD") ii.1 kv.1) kv.2) o) out =
      out ++ flatTokens (lit "CMD") n seq := by
  intro seq
  induction seq with
  | nil => intro n out _ _; simp [flatTokens, List.enumFrom]
  | cons item rest ih =>
    intro n out hval hout
    rw [List.enumFrom_cons, List.foldl_cons]
    have hitem := hval item (List.mem_cons_self _ _)
    have hinner := item_foldl_flat item out n hitem.2.1
      (fun kv h => hitem.2.2 kv h)
      (fun kv h => by
        rw [dictHasKey_false]
        intro kv3 hm3 he
        obtain ⟨i2, kk, hi2, hkk, hallk, heq⟩ := hout kv3.1
          (List.mem_map_of_mem Prod.fst hm3)
        have hv := hitem.2.2 kv h
        have := arrKey_inj i2 n kk kv.1 hkk hallk hv.1 hv.2 (heq ▸ he)
        omega)
    dsimp only at hinner ⊢
    rw [hinner]
    have hrec := ih (n + 1) (out ++ item.map (fun kv => (arrKey (lit "CMD") n kv.1, kv.2)))
      (fun it hm => hval it (List.mem_cons_of_mem _ hm))
      (fun k2 hk2 => by
        rw [List.map_append] at hk2
        rcases List.mem_append.mp hk2 with hl | hr
        · obtain ⟨i2, kk, hi2, hkk, hallk, heq⟩ := hout k2 hl
          exact ⟨i2, kk, by omega, hkk, hallk, heq⟩
        · rw [List.map_map] at hr
          obtain ⟨kv0, hkv0, heq⟩ := List.mem_map.mp hr
          have hv := hitem.2.2 kv0 hkv0
          exact ⟨n, kv0.1, by omega, hv.1, hv.2, heq.symm⟩)
    rw [hrec, List.append_assoc]
    rfl

lemma build_array_eq_flat (seq : List Tok) (hval : validItems seq) :
    build_array_tokens seq (lit "CMD") =
      flatTokens (lit "CMD") 0 seq ++
        [(lit "CMD" ++ lit "_COUNT", some (natDigits seq.length))] := by
  unfold build_array_tokens
  rw [List.enum_eq_enumFrom, enum_foldl_flat seq 0 [] hval (by simp)]
  rw [List.nil_append]
  refine dictSet_fresh _ _ _ ?_
  rw [dictHasKey_false]
  intro kv hm he
  obtain ⟨i2, kk, _, hkk, hallk, heq⟩ := flatTokens_mem_key seq 0 kv hm hval
  exact arrKey_ne_count i2 kk hkk hallk (heq ▸ he)

/-! ## C8 — array token round trip: the decoder rebuilds the items -/

lemma decodeStep_at_arrKey (bs : List (Nat × Tok)) (n : Nat) (k : Str)
    (v : Option Str) (hk : k ≠ []) (hallk : k.all isKeyChar = true) :
    decodeStep (lit "CMD") bs (arrKey (lit "CMD") n k, v) = bucketAdd bs n k v := by
  unfold decodeStep
  rw [matchArrayKey_arrKey n k hk hallk]
  dsimp only
  rw [if_pos rfl]

lemma decodeStep_at_count (bs : List (Nat × Tok)) (v : Option Str) :
    decodeStep (lit "CMD") bs (lit "CMD" ++ lit "_COUNT", v) = bs := by
  unfold decodeStep
  rw [matchArrayKey_count]

lemma bucketAdd_new : ∀ (bs : List (Nat × Tok)) (n : Nat) (k : Str) (v : Option Str),
    (∀ b ∈ bs, b.1 ≠ n) → bucketAdd bs n k v = bs ++ [(n, [(k, v)])] := by
  intro bs
  induction bs with
  | nil => intro n k v _; rfl
  | cons b rest ih =>
    intro n k v h
    unfold bucketAdd
    rw [if_neg (h b (List.mem_cons_self _ _))]
    rw [ih n k v (fun b2 h2 => h b2 (List.mem_cons_of_mem _ h2))]
    rfl

lemma bucketAdd_existing : ∀ (bs : List (Nat × Tok)) (n : Nat) (cur : Tok)
    (k : Str) (v : Option Str),
    (∀ b ∈ bs, b.1 ≠ n) →
    bucketAdd (bs ++ [(n, cur)]) n k v = bs ++ [(n, dictSet cur k v)] := by
  intro bs
  induction bs with
  | nil =>
    intro n cur k v _
    show bucketAdd [(n, cur)] n k v = _
    unfold bucketAdd
    rw [if_pos rfl]
    rfl
  | cons b rest ih =>
    intro n cur k v h
    rw [List.cons_append]
    unfold bucketAdd
    rw [if_neg (h b (List.mem_cons_self _ _))]
    rw [ih n cur k v (fun b2 h2 => h b2 (List.mem_cons_of_mem _ h2))]
    rfl

lemma fields_fold : ∀ (fields : Tok) (bs : List (Nat × Tok)) (n : Nat) (cur : Tok),
    (∀ b ∈ bs, b.1 ≠ n) →
    (∀ kv ∈ fields, kv.1 ≠ [] ∧ kv.1.all isKeyChar = true) →
    (∀ kv ∈ fields, dictHasKey cur kv.1 = false) →
    (fields.map Prod.fst).Nodup →
    (fields.map (fun kv => (arrKey (lit "CMD") n kv.1, kv.2))).foldl
      (decodeStep (lit "CMD")) (bs ++ [(n, cur)]) =
      bs ++ [(n, cur ++ fields)] := by
  intro fields
  induction fields with
  | nil => intro bs n cur _ _ _ _; simp
  | cons kv restf ih =>
    intro bs n cur hbs hvalid hfresh hnd
    have hv0 := hvalid kv (List.mem_cons_self _ _)
    rw [List.map_cons, List.foldl_cons,
      decodeStep_at_arrKey _ n kv.1 kv.2 hv0.1 hv0.2,
      bucketAdd_existing bs n cur kv.1 kv.2 hbs,
      dictSet_fresh cur kv.1 kv.2 (hfresh kv (List.mem_cons_self _ _))]
    rw [List.map_cons, List.nodup_cons] at hnd
    have hstep := ih bs n (cur ++ [(kv.1, kv.2)]) hbs
      (fun kv2 h2 => hvalid kv2 (List.mem_cons_of_mem _ h2))
      (fun kv2 h2 => by
        rw [dictHasKey_append, Bool.or_eq_false_iff]
        refine ⟨hfresh kv2 (List.mem_cons_of_mem _ h2), ?_⟩
        rw [dictHasKey_false]
        intro kv3 hm3 he
        rw [List.mem_singleton] at hm3
        rw [hm3] at he
        exact hnd.1 (he ▸ List.mem_map_of_mem Prod.fst h2))
      hnd.2
    rw [hstep, List.append_assoc]
    rfl

lemma decode_fold_flat : ∀ (seq : List Tok) (n : Nat) (bs : List (Nat × Tok)),
    validItems seq → (∀ b ∈ bs, b.1 < n) →
    (flatTokens (lit "CMD") n seq).foldl (decodeStep (lit "CMD")) bs =
      bs ++ List.enumFrom n seq := by
  intro seq
  induction seq with
  | nil => intro n bs _ _; simp [flatTokens, List.enumFrom]
  | cons item rest ih =>
    intro n bs hval hbs
    have hitem := hval item (List.mem_cons_self _ _)
    rw [flatTokens, List.foldl_append]
    cases hitemeq : item with
    | nil => exact absurd hitemeq hitem.1
    | cons kv0 restf =>
      rw [hitemeq] at hitem
      have hv0 := hitem.2.2 kv0 (List.mem_cons_self _ _)
      rw [List.map_cons, List.foldl_cons,
        decodeStep_at_arrKey _ n kv0.1 kv0.2 hv0.1 hv0.2,
        bucketAdd_new bs n kv0.1 kv0.2 (fun b hb => by have := hbs b hb; omega)]
      rw [List.map_cons, List.nodup_cons] at hitem
      have hblock := fields_fold restf bs n [(kv0.1, kv0.2)]
        (fun b hb => by have := hbs b hb; omega)
        (fun kv2 h2 => hitem.2.2 kv2 (List.mem_cons_of_mem _ h2))
        (fun kv2 h2 => by
          rw [dictHasKey_false]
          intro kv3 hm3 he
          rw [List.mem_singleton] at hm3
          rw [hm3] at he
          exact hitem.2.1.1 (he ▸ List.mem_map_of_mem Prod.fst h2))
        hitem.2.1.2
      rw [hblock]
      have hrec := ih (n + 1) (bs ++ [(n, (kv0.1, kv0.2) :: restf)])
        (fun it hm => hval it (List.mem_cons_of_mem _ hm))
        (fun b hb => by
          rcases List.mem_append.mp hb with hl | hr
          · have := hbs b hl; omega
          · rw [List.mem_singleton] at hr; rw [hr]; omega)
      rw [show ([(kv0.1, kv0.2)] : Tok) ++ restf = (kv0.1, kv0.2) :: restf from rfl]
      rw [hrec, List.append_assoc, List.enumFrom_cons]
      rfl

/-! ## C8 — array token round trip: assembly -/

lemma mem_enumFrom_keys {α : Type} : ∀ (l : List α) (n m : Nat),
    m ∈ (List.enumFrom n l).map Prod.fst → n ≤ m := by
  intro l
  induction l with
  | nil => intro n m h; exact absurd h (by simp)
  | cons a rest ih =>
    intro n m h
    rw [List.enumFrom_cons, List.map_cons] at h
    rcases List.mem_cons.mp h with heq | hmem
    · omega
    · have := ih (n + 1) m hmem
      omega

lemma enumFrom_keys_pairwise_lt {α : Type} : ∀ (l : List α) (n : Nat),
    List.Pairwise (· < ·) ((List.enumFrom n l).map Prod.fst) := by
  intro l
  induction l with
  | nil => intro n; simp
  | cons a rest ih =>
    intro n
    rw [List.enumFrom_cons, List.map_cons]
    refine List.Pairwise.cons ?_ (ih (n + 1))
    intro m hm
    have := mem_enumFrom_keys rest (n + 1) m hm
    omega

lemma enumFrom_map_snd {α : Type} : ∀ (n : Nat) (l : List α),
    (List.enumFrom n l).map Prod.snd = l := by
  intro n l
  induction l generalizing n with
  | nil => rfl
  | cons a rest ih =>
    rw [List.enumFrom_cons, List.map_cons, ih (n + 1)]

lemma bucket_lookup_map : ∀ (bs : List (Nat × Tok)),
    ((bs.map Prod.fst).Nodup) →
    (bs.map Prod.fst).filterMap (fun i => bucketGet bs i) = bs.map Prod.snd := by
  intro bs
  induction bs with
  | nil => intro _; rfl
  | cons b rest ih =>
    intro hnd
    rw [List.map_cons, List.nodup_cons] at hnd
    rw [List.map_cons, List.filterMap_cons]
    have hhead : bucketGet (b :: rest) b.1 = some b.2 := by
      simp [bucketGet, List.find?_cons]
    rw [hhead]
    have htail : (rest.map Prod.fst).filterMap (fun i => bucketGet (b :: rest) i) =
        (rest.map Prod.fst).filterMap (fun i => bucketGet rest i) := by
      refine List.filterMap_congr ?_
      intro i hi
      have hne : ¬b.1 = i := fun hh => hnd.1 (hh ▸ hi)
      simp [bucketGet, List.find?_cons, hne]
    rw [htail, ih hnd.2, List.map_cons]

/-- C8 counterexample: a sequence containing an empty mapping does not round
trip — the encoder emits only the COUNT scalar for it, and the decoder
compacts the missing index away, returning the empty sequence. -/
theorem decode_encode_roundtrip_cex :
    parse_array_tokens (build_array_tokens [[]] (lit "CMD")) (lit "CMD") ≠
      [([] : Tok)] := by decide

/-- C8 (amended): decoding the encoding of an ordered sequence restores the
sequence exactly, for sequences of nonempty flat mappings with duplicate-free
keys, each key a nonempty word over A-Z0-9 underscore as required by the
decoder pattern. -/
theorem decode_encode_roundtrip (seq : List Tok) (hval : validItems seq) :
    parse_array_tokens (build_array_tokens seq (lit "CMD")) (lit "CMD") = seq := by
  rw [build_array_eq_flat seq hval]
  unfold parse_array_tokens
  rw [List.foldl_append,
    decode_fold_flat seq 0 [] hval (by simp),
    List.nil_append]
  rw [show List.foldl (decodeStep (lit "CMD")) (List.enumFrom 0 seq)
      [(lit "CMD" ++ lit "_COUNT", some (natDigits seq.length))] =
      List.enumFrom 0 seq from by
    rw [List.foldl_cons, decodeStep_at_count]
    rfl]
  have hpl := enumFrom_keys_pairwise_lt seq 0
  have hnd : ((List.enumFrom 0 seq).map Prod.fst).Nodup :=
    hpl.imp (fun h => ne_of_lt h)
  have hsorted : List.Sorted (· ≤ ·) ((List.enumFrom 0 seq).map Prod.fst) :=
    hpl.imp (fun h => le_of_lt h)
  dsimp only
  rw [List.Sorted.insertionSort_eq hsorted]
  rw [bucket_lookup_map _ hnd, enumFrom_map_snd]

/-- C8 witness: a concrete two-item command sequence round-trips. -/
theorem decode_encode_roundtrip_witness :
    parse_array_tokens (build_array_tokens
      [[(lit "CMD1", some (lit "c1")), (lit "CMD2", some (lit "RESTART"))],
       [(lit "CMD1", some (lit "c2")), (lit "TS", some (lit "20260101"))]]
      (lit "CMD")) (lit "CMD") =
      [[(lit "CMD1", some (lit "c1")), (lit "CMD2", some (lit "RESTART"))],
       [(lit "CMD1", some (lit "c2")), (lit "TS", some (lit "20260101"))]] :=
  decode_encode_roundtrip _ (by unfold validItems; decide)
